import Mathlib

/-!
Verification development for the hob build-pipeline engine.

This file gives a shallow embedding, in Lean 4, of the pure core of the
engine: the recipe data model, the stage list the driver iterates, the
action playbook interpreter, the content-addressed fetcher's verification
policy, the ELF header parser, the install-time hooks (CollectElf and
StripBinaries), and the recipe document parser.  Machine bytes are
modelled as `Nat` values below 256 in `List Nat`; strings as `String`;
fallible code as `Except`/`Option`; the SHA-256 function of the `ring`
crate (an external collaborator) is a parameter `sha : List Nat → List Nat`
of every definition that hashes.  Effectful drivers (the stage loop, the
playbook player) are embedded as trace-producing functions whose events
record the side effects the real code performs in order.
-/

namespace Hob

/-- Bytes of a string.  The engine only hashes and compares ASCII data
(method tags and URLs); for ASCII, code points and UTF-8 bytes agree. -/
def strBytes (s : String) : List Nat :=
  s.data.map Char.toNat

/-- Lower-case hex digit for a nibble, as produced by `hex::ToHex`. -/
def hexDigit (n : Nat) : Char :=
  if n < 10 then Char.ofNat (48 + n) else Char.ofNat (87 + n)

/-- `hex::ToHex::encode_hex`: two lower-case hex chars per byte. -/
def hexEncode (bs : List Nat) : String :=
  String.mk (bs.flatMap fun b => [hexDigit (b / 16 % 16), hexDigit (b % 16)])

/-! ## Stage (src/definition/actions/mod.rs)

The Rust enum declares its variants in the order
`Fetch, Prepare, Extract, Configure, Build, Install, Split, Package`
(`repr(u8)` discriminants 0..7); the inductive below mirrors that
declaration order, and `Stage.declIdx` records the discriminants. -/

inductive Stage
  | Fetch
  | Prepare
  | Extract
  | Configure
  | Build
  | Install
  | Split
  | Package
deriving DecidableEq

/-- The `repr(u8)` discriminant of each variant: the order in which the
enum declares them (`Fetch` first). -/
def Stage.declIdx : Stage → Nat
  | .Fetch => 0
  | .Prepare => 1
  | .Extract => 2
  | .Configure => 3
  | .Build => 4
  | .Install => 5
  | .Split => 6
  | .Package => 7

/-- `Stage::stages()`: the canonical iteration order used by the driver.
Note `Prepare` comes before `Fetch`, unlike the declaration order. -/
def Stage.stages : List Stage :=
  [.Prepare, .Fetch, .Extract, .Configure, .Build, .Install, .Split, .Package]

/-- `Stage::from_str` (src/definition/actions/mod.rs). -/
def Stage.from_str (input : String) : Option Stage :=
  if input = "fetch" then some .Fetch
  else if input = "prepare" then some .Prepare
  else if input = "extract" then some .Extract
  else if input = "configure" then some .Configure
  else if input = "build" then some .Build
  else if input = "install" then some .Install
  else none

/-! ## Actions (src/definition/actions/mod.rs) -/

structure CcAction where
  input : List String
  output : String
deriving DecidableEq

structure BinAction where
  binaries : List String
deriving DecidableEq

structure ManAction where
  man_files : List String
deriving DecidableEq

structure LinkAction where
  source : List String
  target : String
deriving DecidableEq

structure RmAction where
  targets : List String
deriving DecidableEq

structure DirAction where
  targets : List String
deriving DecidableEq

inductive Action
  | Default
  | Cc (cc : CcAction)
  | Configure
  | Make
  | MakeInstall
  | Bin (bin : BinAction)
  | Man (man : ManAction)
  | Link (link : LinkAction)
  | Rm (rm : RmAction)
  | Dir (dir : DirAction)
deriving DecidableEq

structure ActionPlaybook where
  stage : Stage
  actions : List Action
deriving DecidableEq

/-! ## ELF inspector (src/utils/elf.rs)

`ElfHeader::parse` reads at most 56 bytes of the input into a 56-byte
zero-initialised buffer.  A byte of that buffer at index `i < 56` is the
input byte at `i` when `i` is below the amount read and `0` otherwise;
since the amount read is `min input.length 56`, that byte is exactly
`input.getD i 0` for every `i < 56`, which is how `hdrByte` models it. -/

inductive ElfClass
  | Class32
  | Class64
deriving DecidableEq

/-- `ElfClass::width`. -/
def ElfClass.width : ElfClass → Nat
  | .Class32 => 4
  | .Class64 => 8

inductive ElfByteOrder
  | Lsb
  | Msb
deriving DecidableEq

structure ElfHeaderIdent where
  actual : List Nat
  cls : ElfClass
  byte_order : ElfByteOrder
deriving DecidableEq

structure ElfHeader where
  ident : ElfHeaderIdent
  object_type : Nat
  machine : Nat
  version : Nat
  entry : Nat
  program_header_offset : Nat
  section_header_offset : Nat
  flags : Nat
  elf_header_size : Nat
  program_header_entry_size : Nat
  program_header_entries : Nat
  section_header_entry_size : Nat
  section_header_entries : Nat
  section_header_index_for_string_table : Nat
deriving DecidableEq

/-- `ET_DYN`. -/
def ElfHeader.ET_DYN : Nat := 3

/-- `ET_EXEC`. -/
def ElfHeader.ET_EXEC : Nat := 2

/-- `ElfHeader::is_shared_object`. -/
def ElfHeader.is_shared_object (h : ElfHeader) : Bool :=
  h.object_type == ElfHeader.ET_DYN

/-- `ElfHeader::is_executable`. -/
def ElfHeader.is_executable (h : ElfHeader) : Bool :=
  h.object_type == ElfHeader.ET_EXEC

/-- Byte `i` of the 56-byte read buffer (see section comment). -/
def hdrByte (bs : List Nat) (i : Nat) : Nat :=
  bs.getD i 0

/-- The ELF magic `7F 45 4C 46` (`b"\x7FELF"`). -/
def elfMagicBytes : List Nat := [0x7F, 0x45, 0x4C, 0x46]

/-- A 16-bit read from the buffer cursor at absolute offset `off`. -/
def readU16 (bo : ElfByteOrder) (bs : List Nat) (off : Nat) : Nat :=
  match bo with
  | .Lsb => hdrByte bs off + 256 * hdrByte bs (off + 1)
  | .Msb => 256 * hdrByte bs off + hdrByte bs (off + 1)

/-- A 32-bit read from the buffer cursor at absolute offset `off`. -/
def readU32 (bo : ElfByteOrder) (bs : List Nat) (off : Nat) : Nat :=
  match bo with
  | .Lsb => readU16 .Lsb bs off + 65536 * readU16 .Lsb bs (off + 2)
  | .Msb => 65536 * readU16 .Msb bs off + readU16 .Msb bs (off + 2)

/-- A 64-bit read from the buffer cursor at absolute offset `off`. -/
def readU64 (bo : ElfByteOrder) (bs : List Nat) (off : Nat) : Nat :=
  match bo with
  | .Lsb => readU32 .Lsb bs off + 4294967296 * readU32 .Lsb bs (off + 4)
  | .Msb => 4294967296 * readU32 .Msb bs off + readU32 .Msb bs (off + 4)

/-- A class-width read: 4 bytes zero-extended on class 32, 8 on class 64
(the `entry` / `program_header_offset` / `section_header_offset` reads). -/
def readUW (cls : ElfClass) (bo : ElfByteOrder) (bs : List Nat) (off : Nat) : Nat :=
  match cls with
  | .Class32 => readU32 bo bs off
  | .Class64 => readU64 bo bs off

/-- The field decode of `ElfHeader::parse`: the cursor walks the buffer
from offset 16, reading `object_type`, `machine`, `version`, then the
three class-width fields, then `flags` and the six trailing 16-bit
fields.  `w` abbreviates the class width. -/
def decodeElfHeader (input : List Nat) (cls : ElfClass) (bo : ElfByteOrder) : ElfHeader :=
  let w := cls.width
  { ident := { actual := (List.range 16).map (hdrByte input)
               cls := cls
               byte_order := bo }
    object_type := readU16 bo input 16
    machine := readU16 bo input 18
    version := readU32 bo input 20
    entry := readUW cls bo input 24
    program_header_offset := readUW cls bo input (24 + w)
    section_header_offset := readUW cls bo input (24 + 2 * w)
    flags := readU32 bo input (24 + 3 * w)
    elf_header_size := readU16 bo input (28 + 3 * w)
    program_header_entry_size := readU16 bo input (30 + 3 * w)
    program_header_entries := readU16 bo input (32 + 3 * w)
    section_header_entry_size := readU16 bo input (34 + 3 * w)
    section_header_entries := readU16 bo input (36 + 3 * w)
    section_header_index_for_string_table := readU16 bo input (38 + 3 * w) }

/-- The tail of `ElfHeader::parse` once class and byte order are known:
the `rest_header_size = 40 + 3 * class width` guard against the amount
read, then the field decode. -/
def parseWithOrder (input : List Nat) (amt : Nat) (cls : ElfClass)
    (bo : ElfByteOrder) : Option ElfHeader :=
  if amt < 40 + cls.width * 3 then none
  else some (decodeElfHeader input cls bo)

/-- The data-encoding dispatch of `ElfHeader::parse`: byte 5 must be 1
(`ELFDATA2LSB`) or 2 (`ELFDATA2MSB`); anything else is `None`. -/
def parseWithClass (input : List Nat) (amt : Nat) (cls : ElfClass) :
    Option ElfHeader :=
  if hdrByte input 5 = 1 then parseWithOrder input amt cls .Lsb
  else if hdrByte input 5 = 2 then parseWithOrder input amt cls .Msb
  else none

/-- `ElfHeader::parse` as a function of the input bytes.  `amt` is the
amount the single `read` call returns (all available bytes, capped at the
56-byte buffer).  The checks follow the source in order: minimum length
and magic, the class byte (1 = `ELFCLASS32`, 2 = `ELFCLASS64`, anything
else `None`), the data-encoding byte, then the `40 + 3 * class width`
guard before decoding. -/
def ElfHeader.parse (input : List Nat) : Option ElfHeader :=
  let amt := min input.length 56
  if amt < 24 then none
  else if ¬(hdrByte input 0 = 0x7F ∧ hdrByte input 1 = 0x45 ∧
            hdrByte input 2 = 0x4C ∧ hdrByte input 3 = 0x46) then none
  else if hdrByte input 4 = 1 then parseWithClass input amt .Class32
  else if hdrByte input 4 = 2 then parseWithClass input amt .Class64
  else none

/-! ## Artifact model (src/definition/mod.rs) -/

structure FetchArtifact where
  url : String
  file_name : String
deriving DecidableEq

inductive ArtifactSource
  | Fetch (f : FetchArtifact)
deriving DecidableEq

/-- `ArtifactSource::method_name`: the method tag fed to the identity
digest (`b"fetch"`). -/
def ArtifactSource.method_name : ArtifactSource → List Nat
  | .Fetch _ => strBytes "fetch"

/-- `ArtifactSource::file_name`. -/
def ArtifactSource.file_name : ArtifactSource → String
  | .Fetch f => f.file_name

/-- `ArtifactSource::hash_data`: the url bytes. -/
def ArtifactSource.hash_data : ArtifactSource → List Nat
  | .Fetch f => strBytes f.url

/-- `Verification`: an optional 32-byte SHA-256 expectation. -/
structure Verification where
  sha256 : Option (List Nat)
deriving DecidableEq

structure Artifact where
  source : ArtifactSource
  verification : Verification
deriving DecidableEq

/-- `Artifact::file_name`. -/
def Artifact.file_name (a : Artifact) : String :=
  a.source.file_name

/-- `Artifact::hash_id`: SHA-256 of `method_name || hash_data`, truncated
to its first 32 bytes.  `sha` is the external SHA-256 function of the
`ring` crate, taken as a parameter. -/
def Artifact.hash_id (sha : List Nat → List Nat) (a : Artifact) : List Nat :=
  (sha (a.source.method_name ++ a.source.hash_data)).take 32

/-! ## Engine settings (src/engine/mod.rs) -/

structure EngineSettings where
  cache_path : String
  source_path : String
  root_path : String
  dest_path : String
  package_path : String
deriving DecidableEq

/-- `Path::join` for the string paths used here. -/
def pathJoin (a b : String) : String :=
  a ++ "/" ++ b

/-- The settings `Engine::new` installs. -/
def defaultEngineSettings : EngineSettings :=
  { cache_path := "/tmp/hob/cache"
    source_path := ".hob/src"
    dest_path := ".hob/dest"
    root_path := "/tmp/hob/root"
    package_path := ".hob/pkg" }

/-! ## Fetcher (src/engine/fetcher.rs) -/

structure FailedHash where
  algo : String
  found : List Nat
  expected : List Nat
deriving DecidableEq

inductive HobFetchAffected
  | Fetched
  | Cache (path : String)
deriving DecidableEq

/-- `HobFetchError` with kind `VerificationFailed` (the only kind the
fetcher constructs). -/
structure HobFetchError where
  hashes : List FailedHash
  affected : Option HobFetchAffected
  artifact : Artifact
deriving DecidableEq

/-- `DigestPool::from_verification` followed by `update` over the data
and `finish`: one pool entry per present field (only `sha256`), and the
list of `FailedHash` values whose digest disagrees with the expectation.
Streaming the chunks through the incremental hasher computes the digest
of their concatenation, so the pool is a function of the full data. -/
def DigestPool.failures (sha : List Nat → List Nat) (v : Verification)
    (data : List Nat) : List FailedHash :=
  match v.sha256 with
  | none => []
  | some expected =>
    if sha data = expected then []
    else [{ algo := "sha256", found := sha data, expected := expected }]

/-- `Fetcher::create_artifact_path`:
`{cache_path}/{hex(artifact.hash_id)}-{artifact.file_name}`. -/
def Fetcher.create_artifact_path (sha : List Nat → List Nat)
    (settings : EngineSettings) (artifact : Artifact) : String :=
  pathJoin settings.cache_path
    (hexEncode (Artifact.hash_id sha artifact) ++ "-" ++ artifact.file_name)

deriving instance DecidableEq for Except

/-- Result of a fetch: the returned value, and the contents of the cache
slot afterwards (`none` when no file is left on disk). -/
structure FetchResult where
  result : Except HobFetchError String
  fileAfter : Option (List Nat)
deriving DecidableEq

/-- `Fetcher::fetch` as a function of the filesystem and network it
sees: `cached` is the contents of the artifact's cache path when that
path exists, and `body` the bytes the HTTP response streams.  When the
path exists the cached bytes are re-hashed (`verify_file`); a mismatch
fails with `Cache(path)` affected and does not touch the file.  Otherwise
the body is streamed to the path while hashed; a mismatch removes the
just-written file and fails with `Fetched` affected. -/
def Fetcher.fetch (sha : List Nat → List Nat) (settings : EngineSettings)
    (artifact : Artifact) (cached : Option (List Nat)) (body : List Nat) :
    FetchResult :=
  let path := Fetcher.create_artifact_path sha settings artifact
  match cached with
  | some bytes =>
    match DigestPool.failures sha artifact.verification bytes with
    | [] => { result := .ok path, fileAfter := some bytes }
    | hashes =>
      { result := .error { hashes := hashes
                           affected := some (.Cache path)
                           artifact := artifact }
        fileAfter := some bytes }
  | none =>
    match DigestPool.failures sha artifact.verification body with
    | [] => { result := .ok path, fileAfter := some body }
    | hashes =>
      { result := .error { hashes := hashes
                           affected := some .Fetched
                           artifact := artifact }
        fileAfter := none }

/-! ## The Fetch stage's default body (src/engine/mod.rs, `Engine::fetch`)

`join_all` produces one `Result` per artifact, in artifact order; the
body partitions them, and either returns an `EngineError` carrying every
failure (leaving `state.artifacts` as it was) or assigns the successes. -/

/-- The partition loop of `Engine::fetch`: successes and failures, each
in arrival order. -/
def partitionResults {ε α : Type} : List (Except ε α) → List α × List ε
  | [] => ([], [])
  | .ok v :: rest =>
    let (o, e) := partitionResults rest
    (v :: o, e)
  | .error er :: rest =>
    let (o, e) := partitionResults rest
    (o, er :: e)

/-- `Engine::fetch` on the per-artifact results, returning the stage
result together with the new value of `state.artifacts`. -/
def Engine.fetchStage {ε α : Type} (results : List (Except ε α))
    (artifacts : List α) : Except (List ε) Unit × List α :=
  let (ok, errors) := partitionResults results
  if errors.isEmpty then (.ok (), ok) else (.error errors, artifacts)

/-! ## The stage driver (src/engine/mod.rs, `Engine::build_recipe`)

The driver iterates `Stage::stages()`; for each stage it runs the Before
hooks, the stage body, then the After hooks, aborting the remaining work
on the first failure.  The embedding records those three phases as trace
events; `beforeOk`/`bodyOk`/`afterOk` give each phase's outcome. -/

inductive StageEvent
  | beforeHooks (s : Stage)
  | stageBody (s : Stage)
  | afterHooks (s : Stage)
deriving DecidableEq

/-- The stage loop of `build_recipe` over a remaining stage list:
the trace of executed phases and whether the build succeeded. -/
def Engine.buildRecipeGo (beforeOk bodyOk afterOk : Stage → Bool) :
    List Stage → List StageEvent × Bool
  | [] => ([], true)
  | s :: rest =>
    if beforeOk s then
      if bodyOk s then
        if afterOk s then
          let (t, r) := Engine.buildRecipeGo beforeOk bodyOk afterOk rest
          (.beforeHooks s :: .stageBody s :: .afterHooks s :: t, r)
        else ([.beforeHooks s, .stageBody s, .afterHooks s], false)
      else ([.beforeHooks s, .stageBody s], false)
    else ([.beforeHooks s], false)

/-- `Engine::build_recipe`: the loop over `Stage::stages()`. -/
def Engine.buildRecipeTrace (beforeOk bodyOk afterOk : Stage → Bool) :
    List StageEvent × Bool :=
  Engine.buildRecipeGo beforeOk bodyOk afterOk Stage.stages

/-! ## Player (src/engine/player.rs)

`play` looks the stage up in the recipe's playbook map (embedded as an
association list with `HashMap` insert/get semantics), falling back to
the one-element list `[Default]`.  It executes actions in order until a
`Default`, splices the caller's default body there, then executes the
remaining actions, failing on a second `Default`.  Events record the
executed actions; the default body is a caller-supplied event list. -/

inductive PlayEvent
  | exec (a : Action)
  | defaultStep (n : Nat)
deriving DecidableEq

/-- `HashMap::get` on the playbooks map. -/
def lookupStage : List (Stage × ActionPlaybook) → Stage → Option ActionPlaybook
  | [], _ => none
  | (k, v) :: rest, s => if k = s then some v else lookupStage rest s

/-- `HashMap::insert` on the playbooks map. -/
def insertPlaybook : List (Stage × ActionPlaybook) → Stage → ActionPlaybook →
    List (Stage × ActionPlaybook)
  | [], s, v => [(s, v)]
  | (k, w) :: rest, s, v =>
    if k = s then (k, v) :: rest else (k, w) :: insertPlaybook rest s v

/-- The second loop of `Player::play`, after the default body ran: every
further action is executed, and a second `Default` is the fatal error
".default called twice". -/
def Player.playAfterDefault : List Action → Except String (List PlayEvent)
  | [] => .ok []
  | a :: rest =>
    if a = Action.Default then .error ".default called twice"
    else (Player.playAfterDefault rest).map fun l => .exec a :: l

/-- The first loop of `Player::play`: execute actions until a `Default`
is seen; on `Default`, splice the default body and continue with
`playAfterDefault`.  Returns the event trace and whether a `Default`
was encountered. -/
def Player.playMain (dflt : List PlayEvent) :
    List Action → Except String (List PlayEvent × Bool)
  | [] => .ok ([], false)
  | a :: rest =>
    if a = Action.Default then
      (Player.playAfterDefault rest).map fun l => (dflt ++ l, true)
    else
      (Player.playMain dflt rest).map fun p => (.exec a :: p.1, p.2)

/-- `Player::play`: the playbook for the stage, or `DEFAULT_ACTIONS`
(`[Default]`) when the map has none. -/
def Player.play (playbooks : List (Stage × ActionPlaybook)) (stage : Stage)
    (dflt : List PlayEvent) : Except String (List PlayEvent × Bool) :=
  let actions := ((lookupStage playbooks stage).map ActionPlaybook.actions).getD
    [Action.Default]
  Player.playMain dflt actions

/-! ## CollectElf hook (src/engine/hooks/install/collect_elf.rs)

Per non-symlink regular file under dest the hook does: `read_exact` of 9
bytes into a buffer reused across files (zero-initialised once); when
that read returns `Ok` — i.e. the file has at least 9 bytes — the code
`continue`s, skipping the file; only on a failed (short) read does it
compare the buffer's first 8 bytes against `"!<arch>\n"`, and otherwise
seek back to 0 and try the ELF parse.  A failed `read_exact` leaves the
file's bytes in the buffer's prefix and the previous contents
(`residue`) beyond them. -/

/-- The archive magic `"!<arch>\n"`. -/
def arMagic : List Nat := [0x21, 0x3C, 0x61, 0x72, 0x63, 0x68, 0x3E, 0x0A]

/-- The 9-byte buffer after `read_exact` on a file of the given bytes:
the file's prefix, then what the buffer held before (`residue`). -/
def collectElfBuffer (residue bytes : List Nat) : List Nat :=
  bytes.take 9 ++ residue.drop (min bytes.length 9)

/-- What CollectElf does with one regular file. -/
inductive CollectOutcome
  | skipped
  | archive
  | elfRecord (h : ElfHeader)
  | ignored
deriving DecidableEq

/-- The per-file body of `CollectElf::run`: `residue` is the buffer
content left by earlier files (zeros for the first file). -/
def CollectElf.processFile (residue bytes : List Nat) : CollectOutcome :=
  if 9 ≤ bytes.length then .skipped
  else if (collectElfBuffer residue bytes).take 8 = arMagic then .archive
  else
    match ElfHeader.parse bytes with
    | some h => .elfRecord h
    | none => .ignored

/-! ## StripBinaries hook (src/engine/hooks/install/strip_binaries.rs)

The hook returns early when `options.strip` is explicitly `false`.
Otherwise it walks the collected ELF headers: an entry goes to
`libraries` when its machine is nonzero and it is a shared object, and
to `binaries` when it is an executable (the machine field is not
consulted for executables).  It then invokes `strip`,
`strip --strip-unneeded` and `strip --strip-debug`, each only when the
respective list is non-empty.  The header map is embedded as a list in
iteration order. -/

inductive StripCmd
  | strip (files : List String)
  | stripUnneeded (files : List String)
  | stripDebug (files : List String)
deriving DecidableEq

/-- The classification loop of `StripBinaries::run`:
`(binaries, libraries)`, each in header-iteration order. -/
def StripBinaries.classify :
    List (String × ElfHeader) → List String × List String
  | [] => ([], [])
  | (p, h) :: rest =>
    let (b, l) := StripBinaries.classify rest
    ((if h.is_executable then [p] else []) ++ b,
     (if h.machine ≠ 0 ∧ h.is_shared_object then [p] else []) ++ l)

/-- `StripBinaries::run`: the `strip` invocations it performs, in
order. -/
def StripBinaries.run (strip? : Option Bool)
    (elf_headers : List (String × ElfHeader)) (archives : List String) :
    List StripCmd :=
  if ¬(strip?.getD true) then []
  else
    let (binaries, libraries) := StripBinaries.classify elf_headers
    (if binaries ≠ [] then [.strip binaries] else []) ++
    (if libraries ≠ [] then [.stripUnneeded libraries] else []) ++
    (if archives ≠ [] then [.stripDebug archives] else [])

/-! ## Document model (src/definition/parsing.rs)

The document surface is an abstract node tree: a node has a name, an
ordered entry list (each a positional value or a named property), and a
child node list (`children().map_or(&[], nodes)` is the empty list for a
childless node).  `HobParseError` carries a source span in the Rust; the
span is a position in the source text and is not modelled — the label,
help and kind fields are.  The `help` the sha256 arm fills with the hex
crate's error text is modelled as `none`. -/

inductive KdlValue
  | str (s : String)
  | boolv (b : Bool)
  | other
deriving DecidableEq

structure KdlEntry where
  name : Option String
  value : KdlValue
deriving DecidableEq

structure KdlNode where
  name : String
  entries : List KdlEntry
  children : List KdlNode

structure HobParseError where
  label : Option String
  help : Option String
  kind : String
deriving DecidableEq

/-- `extract_single_string_value`. -/
def extractSingleStringValue (input : KdlNode)
    (missing wrongType tooMany propFound : String) :
    Except HobParseError String :=
  match input.entries with
  | [] => .error ⟨none, none, missing⟩
  | [e] =>
    if e.name.isSome then .error ⟨none, none, propFound⟩
    else
      match e.value with
      | .str v => .ok v
      | _ => .error ⟨none, none, wrongType⟩
  | _ => .error ⟨none, none, tooMany⟩

/-- `extract_single_bool_value`. -/
def extractSingleBoolValue (input : KdlNode)
    (missing wrongType tooMany propFound : String) :
    Except HobParseError Bool :=
  match input.entries with
  | [] => .error ⟨none, none, missing⟩
  | [e] =>
    if e.name.isSome then .error ⟨none, none, propFound⟩
    else
      match e.value with
      | .boolv v => .ok v
      | _ => .error ⟨none, none, wrongType⟩
  | _ => .error ⟨none, none, tooMany⟩

/-- `extract_string_values`: positional strings, failing on the first
named property or non-string value. -/
def extractStringValues (entries : List KdlEntry)
    (wrongType propFound : String) : Except HobParseError (List String) :=
  match entries with
  | [] => .ok []
  | e :: rest =>
    if e.name.isSome then .error ⟨none, none, propFound⟩
    else
      match e.value with
      | .str v => (extractStringValues rest wrongType propFound).map (v :: ·)
      | _ => .error ⟨none, none, wrongType⟩

/-- The loop of `extract_string_values_with_extend`.  `first` stays true
across leading `extends=` properties (the Rust `continue` skips the
`first = false` assignment), so every entry of the leading `extends` run
is honoured, the last one winning. -/
def extractStringValuesWithExtendGo (wrongType propFound : String) :
    List KdlEntry → Bool → Bool → Except HobParseError (List String × Bool)
  | [], _, ext => .ok ([], ext)
  | e :: rest, first, ext =>
    if first ∧ e.name = some "extends" then
      match e.value with
      | .boolv v => extractStringValuesWithExtendGo wrongType propFound rest first v
      | _ => .error ⟨none, none, "extends expects a bool"⟩
    else
      if e.name.isSome then .error ⟨none, none, propFound⟩
      else
        match e.value with
        | .str v =>
          (extractStringValuesWithExtendGo wrongType propFound rest false ext).map
            fun p => (v :: p.1, p.2)
        | _ => .error ⟨none, none, wrongType⟩

/-- `extract_string_values_with_extend`. -/
def extractStringValuesWithExtend (entries : List KdlEntry)
    (wrongType propFound : String) : Except HobParseError (List String × Bool) :=
  extractStringValuesWithExtendGo wrongType propFound entries true true

/-- The `parse_string_into!` macro: `extract_single_string_value` with
the four messages it builds from the field name by `concat!`. -/
def parseStringInto (node : KdlNode) (name : String) :
    Except HobParseError String :=
  extractSingleStringValue node (name ++ " missing")
    (name ++ " should be a string") ("only 1 string expected for " ++ name)
    (name ++ " expected a value, property found instead")

/-- The `parse_bool_into!` macro. -/
def parseBoolInto (node : KdlNode) (name : String) :
    Except HobParseError Bool :=
  extractSingleBoolValue node (name ++ " missing")
    (name ++ " should be a bool") ("only 1 bool expected for " ++ name)
    (name ++ " expected a value, property found instead")

/-! ## Action parsing (src/definition/actions/parsing.rs) -/

structure CcParseState where
  output : Option String
  inputs : List String
  errors : List HobParseError

/-- The entry loop of `CcAction`'s parser: `output=` properties set the
output (a duplicate also records an error), other named properties are
ignored, positional strings accumulate as inputs. -/
def ccParseStep (st : CcParseState) (e : KdlEntry) : CcParseState :=
  match e.name with
  | some n =>
    if n = "output" then
      let st1 :=
        if st.output.isSome then
          { st with errors := st.errors ++
              [⟨some "second output definition", none,
                "output is defined multiple times for cc"⟩] }
        else st
      match e.value with
      | .str v => { st1 with output := some v }
      | _ => { st1 with errors := st1.errors ++
          [⟨none, none, "output value should be a string"⟩] }
    else st
  | none =>
    match e.value with
    | .str v => { st with inputs := st.inputs ++ [v] }
    | _ => { st with errors := st.errors ++
        [⟨none, none, "input value should be a string"⟩] }

/-- `CcAction`'s `parse_node_with_errors`: the action is produced only
when an output was found and the input list is non-empty. -/
def CcAction.parseNodeWithErrors (input : KdlNode) :
    Option CcAction × List HobParseError :=
  let st := input.entries.foldl ccParseStep ⟨none, [], []⟩
  ((st.output.filter fun _ => ¬st.inputs.isEmpty).map
      fun o => { input := st.inputs, output := o },
   st.errors)

/-- `parse_string_list_into!` as the list-action parsers use it; every
one of them passes the name `"bin arguments"`. -/
def parseBinArgumentsList (input : KdlNode) : List String × List HobParseError :=
  match extractStringValues input.entries
      "bin arguments expects only string values"
      "bin arguments expected values, property found instead" with
  | .ok n => (n, [])
  | .error e => ([], [e])

/-- `BinAction`'s `parse_node_with_errors`. -/
def BinAction.parseNodeWithErrors (input : KdlNode) :
    Option BinAction × List HobParseError :=
  let (args, errors) := parseBinArgumentsList input
  (some { binaries := args }, errors)

/-- `ManAction`'s `parse_node_with_errors`. -/
def ManAction.parseNodeWithErrors (input : KdlNode) :
    Option ManAction × List HobParseError :=
  let (args, errors) := parseBinArgumentsList input
  (some { man_files := args }, errors)

/-- `DirAction`'s `parse_node_with_errors`. -/
def DirAction.parseNodeWithErrors (input : KdlNode) :
    Option DirAction × List HobParseError :=
  let (args, errors) := parseBinArgumentsList input
  (some { targets := args }, errors)

/-- `RmAction`'s `parse_node_with_errors`. -/
def RmAction.parseNodeWithErrors (input : KdlNode) :
    Option RmAction × List HobParseError :=
  let (args, errors) := parseBinArgumentsList input
  (some { targets := args }, errors)

/-- `LinkAction`'s `parse_node_with_errors`: at least two positional
strings, the last being the target. -/
def LinkAction.parseNodeWithErrors (input : KdlNode) :
    Option LinkAction × List HobParseError :=
  let (args, errors) := parseBinArgumentsList input
  if args.length < 2 then
    (none, errors ++
      [⟨none, none, "link needs at least 2 arguments, source and target"⟩])
  else
    (some { source := args.dropLast, target := args.getLastD "" }, errors)

/-- `Action`'s `parse_node_with_errors`: dispatch on the node name. -/
def Action.parseNodeWithErrors (input : KdlNode) :
    Option Action × List HobParseError :=
  if input.name = ".default" then (some .Default, [])
  else if input.name = "make" then (some .Make, [])
  else if input.name = "make-install" then (some .MakeInstall, [])
  else if input.name = "cc" then
    let (a, e) := CcAction.parseNodeWithErrors input
    (a.map .Cc, e)
  else if input.name = "bin" then
    let (a, e) := BinAction.parseNodeWithErrors input
    (a.map .Bin, e)
  else if input.name = "man" then
    let (a, e) := ManAction.parseNodeWithErrors input
    (a.map .Man, e)
  else if input.name = "rm" then
    let (a, e) := RmAction.parseNodeWithErrors input
    (a.map .Rm, e)
  else if input.name = "dir" then
    let (a, e) := DirAction.parseNodeWithErrors input
    (a.map .Dir, e)
  else if input.name = "link" then
    let (a, e) := LinkAction.parseNodeWithErrors input
    (a.map .Link, e)
  else (none, [⟨none, none, "unknown action"⟩])

/-- `ActionPlaybook`'s `parse_node_with_errors`: the node name must be a
known stage token; the child nodes parse as actions, every error is
collected, and the parsed actions keep their order. -/
def ActionPlaybook.parseNodeWithErrors (input : KdlNode) :
    Option ActionPlaybook × List HobParseError :=
  match Stage.from_str input.name with
  | none => (none, [⟨none, none, "unknown stage"⟩])
  | some st =>
    let (actions, errors) := input.children.foldl
      (fun (acc : List Action × List HobParseError) node =>
        let (a, e) := Action.parseNodeWithErrors node
        (acc.1 ++ a.toList, acc.2 ++ e))
      ([], [])
    (some { stage := st, actions := actions }, errors)

/-! ## Artifact / verification parsing (src/definition/parsing.rs) -/

/-- Value of one hex digit, as `hex::decode` accepts them. -/
def hexDigitVal (c : Char) : Option Nat :=
  if 48 ≤ c.toNat ∧ c.toNat ≤ 57 then some (c.toNat - 48)
  else if 97 ≤ c.toNat ∧ c.toNat ≤ 102 then some (c.toNat - 87)
  else if 65 ≤ c.toNat ∧ c.toNat ≤ 70 then some (c.toNat - 55)
  else none

/-- `hex::decode` on a character list: fails on odd length or an invalid
digit. -/
def hexDecodeList : List Char → Option (List Nat)
  | [] => some []
  | [_] => none
  | a :: b :: rest =>
    match hexDigitVal a, hexDigitVal b, hexDecodeList rest with
    | some x, some y, some l => some ((16 * x + y) :: l)
    | _, _, _ => none

/-- `hex::decode`. -/
def hexDecode (s : String) : Option (List Nat) :=
  hexDecodeList s.data

/-- The child loop of `Verification`'s parser: each `sha256` node's
string is hex-decoded; a non-32-byte result or bad hex records an error,
a good one replaces the expectation. -/
def verificationParseStep (st : Option (List Nat) × List HobParseError)
    (node : KdlNode) : Option (List Nat) × List HobParseError :=
  if node.name = "sha256" then
    match parseStringInto node "sha256" with
    | .error e => (st.1, st.2 ++ [e])
    | .ok strSha =>
      match hexDecode strSha with
      | some v =>
        if v.length ≠ 32 then
          (st.1, st.2 ++
            [⟨none, none, "expected 32 byte long hex string for sha256"⟩])
        else (some v, st.2)
      | none => (st.1, st.2 ++ [⟨none, none, "invalid hex string"⟩])
  else st

/-- `Verification`'s `parse_node_with_errors` (always produces a
value). -/
def Verification.parseNodeWithErrors (input : KdlNode) :
    Option Verification × List HobParseError :=
  let (sha, errors) := input.children.foldl verificationParseStep (none, [])
  (some { sha256 := sha }, errors)

/-- The default file name of a fetch artifact: the last `/`-segment of
the url, cut before the first `?`
(`url.rsplit('/').next().unwrap().split('?').next().unwrap()`). -/
def defaultFileName (url : String) : String :=
  (((url.splitOn "/").getLastD "").splitOn "?").headD ""

structure FetchArtifactParseState where
  url : Option String
  file_name : Option String
  errors : List HobParseError

/-- The child loop of `FetchArtifact`'s parser. -/
def fetchArtifactParseStep (st : FetchArtifactParseState) (node : KdlNode) :
    FetchArtifactParseState :=
  if node.name = "url" then
    match parseStringInto node "url of artifact" with
    | .ok v => { st with url := some v }
    | .error e => { st with errors := st.errors ++ [e] }
  else if node.name = "name" then
    match parseStringInto node "name of artifact" with
    | .ok v => { st with file_name := some v }
    | .error e => { st with errors := st.errors ++ [e] }
  else st

/-- `FetchArtifact`'s `parse_node_with_errors`: requires a url; the file
name defaults from the url. -/
def FetchArtifact.parseNodeWithErrors (input : KdlNode) :
    Option FetchArtifact × List HobParseError :=
  let st := input.children.foldl fetchArtifactParseStep ⟨none, none, []⟩
  match st.url with
  | some url =>
    (some { url := url, file_name := st.file_name.getD (defaultFileName url) },
     st.errors)
  | none =>
    (none, st.errors ++
      [⟨none, none, "fetch artifact requires an url to be given"⟩])

/-- `ArtifactSource`'s `parse_node_with_errors`: only `fetch` nodes are
known. -/
def ArtifactSource.parseNodeWithErrors (input : KdlNode) :
    Option ArtifactSource × List HobParseError :=
  if input.name = "fetch" then
    let (o, e) := FetchArtifact.parseNodeWithErrors input
    (o.map .Fetch, e)
  else (none, [⟨none, none, "Unknown type of artifact"⟩])

/-- `Artifact`'s `parse_node_with_errors`: verification first, then the
source, errors in that order. -/
def Artifact.parseNodeWithErrors (input : KdlNode) :
    Option Artifact × List HobParseError :=
  let (ver?, errors) := Verification.parseNodeWithErrors input
  match ver? with
  | none => (none, errors)
  | some ver =>
    let (src?, err2) := ArtifactSource.parseNodeWithErrors input
    match src? with
    | none => (none, errors ++ err2)
    | some src => (some { source := src, verification := ver }, errors ++ err2)

/-- `Vec<Artifact>`'s `parse_node_with_errors`: every child parses as an
artifact; failures contribute errors only. -/
def parseArtifactVec (input : KdlNode) : List Artifact × List HobParseError :=
  input.children.foldl
    (fun (acc : List Artifact × List HobParseError) node =>
      let (a, e) := Artifact.parseNodeWithErrors node
      (acc.1 ++ a.toList, acc.2 ++ e))
    ([], [])

/-! ## Build style (src/definition/build_style.rs and its parser) -/

inductive BuildStyleType
  | Noop
  | GnuConfigure
  | Configure
deriving DecidableEq

/-- `BuildStyleType::parse`. -/
def BuildStyleType.parse (data : String) : Option BuildStyleType :=
  if data = "noop" then some .Noop
  else if data = "configure" then some .Configure
  else if data = "gnu-configure" then some .GnuConfigure
  else none

structure BuildStyleVariables where
  cc_flags : Option (List String)
  cxx_flags : Option (List String)
  configure_script : Option String
  configure_args : Option (List String)
  make_command : Option String
  make_use_env : Option Bool
  make_args : Option (List String)
  make_env : Option (List (String × String))
deriving DecidableEq

/-- `BuildStyleVariables::default()`. -/
def buildStyleVariablesDefault : BuildStyleVariables :=
  ⟨none, none, none, none, none, none, none, none⟩

structure BuildStyle where
  style : BuildStyleType
  vars : BuildStyleVariables
deriving DecidableEq

/-- `BuildStyle::default()` (`BuildStyleType` defaults to `Noop`). -/
def buildStyleDefault : BuildStyle :=
  { style := .Noop, vars := buildStyleVariablesDefault }

/-- `ListExtHelper::add` on an `Option<Vec<String>>` target. -/
def optListAdd (o : Option (List String)) (v : List String) :
    Option (List String) :=
  match o with
  | some d => some (d ++ v)
  | none => some v

/-- The child loop of `BuildStyleVariables`'s parser.  Note the source
passes the parent node `input`, not the child, to both extraction
macros; the embedding mirrors that. -/
def buildStyleVarsStep (input : KdlNode)
    (acc : BuildStyleVariables × List HobParseError) (node : KdlNode) :
    BuildStyleVariables × List HobParseError :=
  if node.name = "configure-script" then
    match parseStringInto input "configure script" with
    | .ok v => ({ acc.1 with configure_script := some v }, acc.2)
    | .error e => (acc.1, acc.2 ++ [e])
  else if node.name = "configure-args" then
    match extractStringValuesWithExtend input.entries
        "configure args expects only string values"
        "configure args expected values, property found instead" with
    | .ok (n, true) => ({ acc.1 with configure_args := optListAdd acc.1.configure_args n }, acc.2)
    | .ok (n, false) => ({ acc.1 with configure_args := some n }, acc.2)
    | .error e => (acc.1, acc.2 ++ [e])
  else acc

/-- `BuildStyleVariables`'s `parse_node_with_errors`. -/
def BuildStyleVariables.parseNodeWithErrors (input : KdlNode) :
    Option BuildStyleVariables × List HobParseError :=
  let (vars, errors) := input.children.foldl (buildStyleVarsStep input)
    (buildStyleVariablesDefault, [])
  (some vars, errors)

/-- `BuildStyle`'s `parse_node_with_errors`: the single positional
string names the style; an unknown or missing style records an error and
falls back to `Noop`.  (The span the error arm reads would panic on an
entryless node in the Rust; spans are not modelled.) -/
def BuildStyle.parseNodeWithErrors (input : KdlNode) :
    Option BuildStyle × List HobParseError :=
  let (styleName?, errs0) :=
    match parseStringInto input "name of build style" with
    | .ok v => (some v, ([] : List HobParseError))
    | .error e => (none, [e])
  let (styleType, errs1) :=
    match styleName?.bind BuildStyleType.parse with
    | some s => (s, errs0)
    | none => (BuildStyleType.Noop,
        errs0 ++ [⟨none, none, "unknown build style found"⟩])
  let (vars?, err2) := BuildStyleVariables.parseNodeWithErrors input
  (vars?.map fun vars => { style := styleType, vars := vars }, errs1 ++ err2)

/-! ## Recipe options, sides, recipes, documents
(src/definition/mod.rs, src/definition/parsing.rs) -/

structure RecipeOptions where
  strip : Option Bool
deriving DecidableEq

/-- `RecipeOptions::default()`. -/
def recipeOptionsDefault : RecipeOptions :=
  { strip := none }

/-- `RecipeOptions`'s `parse_node_with_errors`. -/
def RecipeOptions.parseNodeWithErrors (input : KdlNode) :
    Option RecipeOptions × List HobParseError :=
  let (strip?, errors) := input.children.foldl
    (fun (acc : Option Bool × List HobParseError) node =>
      if node.name = "strip" then
        match parseBoolInto node "strip" with
        | .ok v => (some v, acc.2)
        | .error e => (acc.1, acc.2 ++ [e])
      else acc)
    (none, [])
  (some { strip := strip? }, errors)

structure Side where
  name : String
  description : String
  depends : List String
  claims : List String
deriving DecidableEq

structure Recipe where
  name : String
  version : String
  source_dir : String
  revision : Nat
  description : String
  home : Option String
  license : List String
  maintainers : List String
  depends : List String
  provides : List String
  artifacts : List Artifact
  style : BuildStyle
  sides : List Side
  options : RecipeOptions
  playbooks : List (Stage × ActionPlaybook)
deriving DecidableEq

/-- `Side::parse_node_with_errors`: description and depends default to
the parent recipe's.  The errors vector is shadowed by a fresh one after
the name parse, so a name-parse error is dropped; the embedding mirrors
that by ignoring it. -/
def Side.parseNodeWithErrors (input : KdlNode) (recipe : Recipe) :
    Option Side × List HobParseError :=
  let name :=
    match parseStringInto input "name of side" with
    | .ok n => n
    | .error _ => ""
  let step : (Side × List HobParseError) → KdlNode →
      Side × List HobParseError := fun acc node =>
    if node.name = "description" then
      match parseStringInto node "side description" with
      | .ok v => ({ acc.1 with description := v }, acc.2)
      | .error e => (acc.1, acc.2 ++ [e])
    else if node.name = "depends" then
      match extractStringValuesWithExtend node.entries
          "side depends expects only string values"
          "side depends expected values, property found instead" with
      | .ok (n, true) => ({ acc.1 with depends := acc.1.depends ++ n }, acc.2)
      | .ok (n, false) => ({ acc.1 with depends := n }, acc.2)
      | .error e => (acc.1, acc.2 ++ [e])
    else if node.name = "claim" then
      match extractStringValuesWithExtend node.entries
          "side claims expects only string values"
          "side claims expected values, property found instead" with
      | .ok (n, true) => ({ acc.1 with claims := acc.1.claims ++ n }, acc.2)
      | .ok (n, false) => ({ acc.1 with claims := n }, acc.2)
      | .error e => (acc.1, acc.2 ++ [e])
    else acc
  let (side, errors) := input.children.foldl step
    ({ name := name
       description := recipe.description
       depends := recipe.depends
       claims := [] }, [])
  (some side, errors)

structure RecipeParseState where
  errors : List HobParseError
  name : String
  found_version : Bool
  version : String
  description : String
  home : Option String
  source_dir : Option String
  options : Option RecipeOptions
  license : List String
  maintainers : List String
  depends : List String
  provides : List String
  artifacts : List Artifact
  style : Option BuildStyle
  playbooks : List (Stage × ActionPlaybook)

/-- The child loop of `Recipe::parse_node_with_errors`.  The match arms
follow the source: note that the stage arm names only
`install | prepare | build | extract | configure` — a child named
`fetch` falls through to the catch-all and is ignored — and that the
`description` and `home` arms pass the literal `"version"` to the
string macro. -/
def recipeParseStep (st : RecipeParseState) (node : KdlNode) :
    RecipeParseState :=
  if node.name = "version" then
    match parseStringInto node "version" with
    | .ok v => { st with found_version := true, version := v }
    | .error e => { st with found_version := true, errors := st.errors ++ [e] }
  else if node.name = "description" then
    match parseStringInto node "version" with
    | .ok v => { st with description := v }
    | .error e => { st with errors := st.errors ++ [e] }
  else if node.name = "home" then
    match parseStringInto node "version" with
    | .ok v => { st with home := some v }
    | .error e => { st with errors := st.errors ++ [e] }
  else if node.name = "source-dir" then
    match parseStringInto node "source-dir" with
    | .ok v => { st with source_dir := some v }
    | .error e => { st with errors := st.errors ++ [e] }
  else if node.name = "depends" then
    match extractStringValuesWithExtend node.entries
        "depends expects only string values"
        "depends expected values, property found instead" with
    | .ok (n, true) => { st with depends := st.depends ++ n }
    | .ok (n, false) => { st with depends := n }
    | .error e => { st with errors := st.errors ++ [e] }
  else if node.name = "provides" then
    match extractStringValuesWithExtend node.entries
        "provides expects only string values"
        "provides expected values, property found instead" with
    | .ok (n, true) => { st with provides := st.provides ++ n }
    | .ok (n, false) => { st with provides := n }
    | .error e => { st with errors := st.errors ++ [e] }
  else if node.name = "license" then
    match extractStringValues node.entries
        "depends expects only string values"
        "depends expected values, property found instead" with
    | .ok n => { st with license := st.license ++ n }
    | .error e => { st with errors := st.errors ++ [e] }
  else if node.name = "maintainer" then
    match extractStringValues node.entries
        "depends expects only string values"
        "depends expected values, property found instead" with
    | .ok n => { st with maintainers := st.maintainers ++ n }
    | .error e => { st with errors := st.errors ++ [e] }
  else if node.name = "artifacts" then
    let (arts, err) := parseArtifactVec node
    { st with artifacts := st.artifacts ++ arts, errors := st.errors ++ err }
  else if node.name = "style" then
    if st.style.isSome then
      { st with errors := st.errors ++
          [⟨some "second definition of style here", none,
            "redefinition of style, can only have one build style"⟩] }
    else
      let (styl, err) := BuildStyle.parseNodeWithErrors node
      { st with errors := st.errors ++ err
                style := match styl with
                         | some s => some s
                         | none => st.style }
  else if node.name = "options" then
    let (opt, err) := RecipeOptions.parseNodeWithErrors node
    { st with errors := st.errors ++ err
              options := match opt with
                         | some o => some o
                         | none => st.options }
  else if node.name = "install" ∨ node.name = "prepare" ∨
          node.name = "build" ∨ node.name = "extract" ∨
          node.name = "configure" then
    let (pb, err) := ActionPlaybook.parseNodeWithErrors node
    { st with errors := st.errors ++ err
              playbooks := match pb with
                           | some p => insertPlaybook st.playbooks p.stage p
                           | none => st.playbooks }
  else st

/-- The initial state of `Recipe::parse_node_with_errors` after the
name parse (`parse_string_into!(input, name, errors, "name of recipe")`,
name defaulting to `"<unnamed>"`, version to `"0.0.0"`). -/
def recipeInitState (input : KdlNode) : RecipeParseState :=
  let base : RecipeParseState :=
    { errors := []
      name := "<unnamed>"
      found_version := false
      version := "0.0.0"
      description := ""
      home := none
      source_dir := none
      options := none
      license := []
      maintainers := []
      depends := []
      provides := []
      artifacts := []
      style := none
      playbooks := [] }
  match parseStringInto input "name of recipe" with
  | .ok n => { base with name := n }
  | .error e => { base with errors := [e] }

/-- The side loop at the end of `Recipe::parse_node_with_errors`. -/
def parseSides (children : List KdlNode) (recipe : Recipe) :
    List Side × List HobParseError :=
  children.foldl
    (fun (acc : List Side × List HobParseError) node =>
      if node.name = "side" then
        let (s, e) := Side.parseNodeWithErrors node recipe
        (acc.1 ++ s.toList, acc.2 ++ e)
      else acc)
    ([], [])

/-- The state after the child fold of `Recipe::parse_node_with_errors`. -/
def recipeFoldState (input : KdlNode) : RecipeParseState :=
  input.children.foldl recipeParseStep (recipeInitState input)

/-- The recipe assembled after the fold (source dir defaulting to
`{name}-{version}`, style and options to their defaults, revision 0,
sides still empty). -/
def recipeAssemble (input : KdlNode) : Recipe :=
  let st := recipeFoldState input
  { name := st.name
    version := st.version
    source_dir := st.source_dir.getD (st.name ++ "-" ++ st.version)
    revision := 0
    description := st.description
    home := st.home
    license := st.license
    maintainers := st.maintainers
    depends := st.depends
    provides := st.provides
    artifacts := st.artifacts
    style := st.style.getD buildStyleDefault
    sides := []
    options := st.options.getD recipeOptionsDefault
    playbooks := st.playbooks }

/-- `Recipe::parse_node_with_errors`: the child fold, the
missing-version check, the recipe assembly, then the side pass against
the assembled recipe. -/
def Recipe.parseNodeWithErrors (input : KdlNode) :
    Option Recipe × List HobParseError :=
  let st := recipeFoldState input
  let verErrs : List HobParseError :=
    if st.found_version then [] else [⟨none, none, "recipe missing version"⟩]
  let recipe0 := recipeAssemble input
  let (sides, sideErrs) := parseSides input.children recipe0
  (some { recipe0 with sides := sides }, st.errors ++ verErrs ++ sideErrs)

structure Document where
  recipes : List Recipe
deriving DecidableEq

/-- The node loop of `Document`'s `parse_document_with_errors`: only
nodes named `recipe` are considered. -/
def documentParseStep (acc : List Recipe × List HobParseError)
    (node : KdlNode) : List Recipe × List HobParseError :=
  if node.name = "recipe" then
    let (r, e) := Recipe.parseNodeWithErrors node
    (acc.1 ++ r.toList, acc.2 ++ e)
  else acc

/-- `Document`'s `parse_document_with_errors`: every error is collected;
the document itself always parses. -/
def Document.parseDocumentWithErrors (nodes : List KdlNode) :
    Option Document × List HobParseError :=
  let (rs, errors) := nodes.foldl documentParseStep ([], [])
  (some { recipes := rs }, errors)

/-- `parse_document_strict`: succeeds only when a document was produced
and no error was collected. -/
def Document.parseDocumentStrict (nodes : List KdlNode) :
    Except (List HobParseError) Document :=
  let (data, errors) := Document.parseDocumentWithErrors nodes
  match data with
  | some obj => if errors.isEmpty then .ok obj else .error errors
  | none => .error errors

/-! # Theorems -/

/-! ## Shared helper lemmas -/

lemma partitionResults_fst {ε α : Type} (results : List (Except ε α)) :
    (partitionResults results).1 = results.filterMap
      (fun r => match r with | .ok v => some v | .error _ => none) := by
  induction results with
  | nil => rfl
  | cons r rest ih => cases r <;> simp [partitionResults, ih]

lemma partitionResults_snd {ε α : Type} (results : List (Except ε α)) :
    (partitionResults results).2 = results.filterMap
      (fun r => match r with | .ok _ => none | .error e => some e) := by
  induction results with
  | nil => rfl
  | cons r rest ih => cases r <;> simp [partitionResults, ih]

/-! ## Claim C10 -/

/-- Claim C10: when at least one artifact fetch fails, the Fetch stage's
default body returns an error aggregating every per-artifact failure (in
artifact order) and leaves `state.artifacts` unchanged, discarding the
successful fetches; `state.artifacts` is assigned (to exactly the
successes, in order) only when every artifact fetched successfully. -/
theorem engine_fetch_aggregates_failures {ε α : Type}
    (results : List (Except ε α)) (artifacts : List α) :
    ((partitionResults results).2 ≠ [] →
      Engine.fetchStage results artifacts =
        (.error (partitionResults results).2, artifacts)) ∧
    ((partitionResults results).2 = [] →
      Engine.fetchStage results artifacts =
        (.ok (), (partitionResults results).1)) ∧
    (partitionResults results).1 = results.filterMap
      (fun r => match r with | .ok v => some v | .error _ => none) ∧
    (partitionResults results).2 = results.filterMap
      (fun r => match r with | .ok _ => none | .error e => some e) := by
  refine ⟨?_, ?_, partitionResults_fst results, partitionResults_snd results⟩
  · intro h
    rcases hp : partitionResults results with ⟨o, errs⟩
    rw [hp] at h
    simp only [ne_eq] at h
    simp [Engine.fetchStage, hp, List.isEmpty_iff, h]
  · intro h
    rcases hp : partitionResults results with ⟨o, errs⟩
    rw [hp] at h
    simp only [] at h
    simp [Engine.fetchStage, hp, List.isEmpty_iff, h]

/-- Witness for C10 at a concrete result list with one failure and one
success, and at an all-success list. -/
theorem engine_fetch_aggregates_failures_witness :
    (Engine.fetchStage ([Except.ok 5, Except.error 7] : List (Except Nat Nat))
        [9] = (.error [7], [9])) ∧
    (Engine.fetchStage ([Except.ok 5, Except.ok 6] : List (Except Nat Nat))
        [] = (.ok (), [5, 6])) :=
  ⟨(engine_fetch_aggregates_failures
      ([Except.ok 5, Except.error 7] : List (Except Nat Nat)) [9]).1
      (by decide),
   (engine_fetch_aggregates_failures
      ([Except.ok 5, Except.ok 6] : List (Except Nat Nat)) []).2.1
      (by decide)⟩

/-! ## Claim C2 -/

/-- Claim C2: when every phase succeeds, `build_recipe` runs the stages
in exactly the canonical iteration order `Prepare, Fetch, Extract,
Configure, Build, Install, Split, Package`, and for each stage runs the
Before hooks, then the stage body, then the After hooks.  `Stage.stages`
begins with `Prepare` even though the enum declaration (`declIdx`) puts
`Fetch` first. -/
theorem build_recipe_stage_order (beforeOk bodyOk afterOk : Stage → Bool)
    (hb : ∀ s, beforeOk s = true) (ho : ∀ s, bodyOk s = true)
    (ha : ∀ s, afterOk s = true) :
    Engine.buildRecipeTrace beforeOk bodyOk afterOk =
      ([.beforeHooks .Prepare, .stageBody .Prepare, .afterHooks .Prepare,
        .beforeHooks .Fetch, .stageBody .Fetch, .afterHooks .Fetch,
        .beforeHooks .Extract, .stageBody .Extract, .afterHooks .Extract,
        .beforeHooks .Configure, .stageBody .Configure, .afterHooks .Configure,
        .beforeHooks .Build, .stageBody .Build, .afterHooks .Build,
        .beforeHooks .Install, .stageBody .Install, .afterHooks .Install,
        .beforeHooks .Split, .stageBody .Split, .afterHooks .Split,
        .beforeHooks .Package, .stageBody .Package, .afterHooks .Package],
       true) ∧
    Stage.stages.head? = some .Prepare ∧
    Stage.declIdx .Fetch = 0 ∧ Stage.declIdx .Prepare = 1 := by
  refine ⟨?_, rfl, rfl, rfl⟩
  simp [Engine.buildRecipeTrace, Stage.stages, Engine.buildRecipeGo,
    hb, ho, ha]

/-- Witness for C2 with every phase succeeding. -/
theorem build_recipe_stage_order_witness :
    Engine.buildRecipeTrace (fun _ => true) (fun _ => true) (fun _ => true) =
      ([.beforeHooks .Prepare, .stageBody .Prepare, .afterHooks .Prepare,
        .beforeHooks .Fetch, .stageBody .Fetch, .afterHooks .Fetch,
        .beforeHooks .Extract, .stageBody .Extract, .afterHooks .Extract,
        .beforeHooks .Configure, .stageBody .Configure, .afterHooks .Configure,
        .beforeHooks .Build, .stageBody .Build, .afterHooks .Build,
        .beforeHooks .Install, .stageBody .Install, .afterHooks .Install,
        .beforeHooks .Split, .stageBody .Split, .afterHooks .Split,
        .beforeHooks .Package, .stageBody .Package, .afterHooks .Package],
       true) ∧
    Stage.stages.head? = some .Prepare ∧
    Stage.declIdx .Fetch = 0 ∧ Stage.declIdx .Prepare = 1 :=
  build_recipe_stage_order (fun _ => true) (fun _ => true) (fun _ => true)
    (fun _ => rfl) (fun _ => rfl) (fun _ => rfl)

/-! ## Claim C4 -/

/-- Claim C4 counterexample: two artifacts with the same source method
(`fetch`), the same `hash_data` (the same url bytes), and even the same
verification, are assigned different cache paths when their file names
differ — the cache path ends in `-{file_name}`, and the file name is not
part of `hash_data`.  This refutes the claim that method and hash_data
alone determine the cache path. -/
theorem create_artifact_path_counterexample :
    ArtifactSource.method_name (.Fetch ⟨"http://x/f", "a"⟩) =
      ArtifactSource.method_name (.Fetch ⟨"http://x/f", "b"⟩) ∧
    ArtifactSource.hash_data (.Fetch ⟨"http://x/f", "a"⟩) =
      ArtifactSource.hash_data (.Fetch ⟨"http://x/f", "b"⟩) ∧
    Fetcher.create_artifact_path (fun _ => []) defaultEngineSettings
        ⟨.Fetch ⟨"http://x/f", "a"⟩, ⟨none⟩⟩ ≠
      Fetcher.create_artifact_path (fun _ => []) defaultEngineSettings
        ⟨.Fetch ⟨"http://x/f", "b"⟩, ⟨none⟩⟩ := by
  refine ⟨rfl, rfl, ?_⟩
  decide

/-- Claim C4 amended: two artifacts with the same method and the same
`hash_data` have the same `hash_id` regardless of verification, and when
additionally their file names agree they are assigned the same cache
path. -/
theorem artifact_cache_slot_amended (sha : List Nat → List Nat)
    (settings : EngineSettings) (a1 a2 : Artifact)
    (hm : a1.source.method_name = a2.source.method_name)
    (hd : a1.source.hash_data = a2.source.hash_data) :
    Artifact.hash_id sha a1 = Artifact.hash_id sha a2 ∧
    (a1.file_name = a2.file_name →
      Fetcher.create_artifact_path sha settings a1 =
        Fetcher.create_artifact_path sha settings a2) := by
  have h1 : Artifact.hash_id sha a1 = Artifact.hash_id sha a2 := by
    unfold Artifact.hash_id
    rw [hm, hd]
  refine ⟨h1, fun hf => ?_⟩
  unfold Fetcher.create_artifact_path
  rw [h1, hf]

/-- Witness for the amended C4 at two artifacts sharing url and file
name but with different verifications. -/
theorem artifact_cache_slot_amended_witness :
    Artifact.hash_id id ⟨.Fetch ⟨"http://x/f", "f"⟩, ⟨some [1]⟩⟩ =
      Artifact.hash_id id ⟨.Fetch ⟨"http://x/f", "f"⟩, ⟨none⟩⟩ ∧
    Fetcher.create_artifact_path id defaultEngineSettings
        ⟨.Fetch ⟨"http://x/f", "f"⟩, ⟨some [1]⟩⟩ =
      Fetcher.create_artifact_path id defaultEngineSettings
        ⟨.Fetch ⟨"http://x/f", "f"⟩, ⟨none⟩⟩ :=
  have t := artifact_cache_slot_amended id defaultEngineSettings
    ⟨.Fetch ⟨"http://x/f", "f"⟩, ⟨some [1]⟩⟩
    ⟨.Fetch ⟨"http://x/f", "f"⟩, ⟨none⟩⟩ rfl rfl
  ⟨t.1, t.2 rfl⟩

/-! ## Claim C1 -/

/-- Claim C1: when the artifact's cache path already exists and the
cached bytes hash to something other than the expected sha256, `fetch`
fails with `VerificationFailed` affected by `Cache(path)` and leaves the
cached file on disk; when the path does not exist and the downloaded
body hashes to something other than the expectation, `fetch` deletes the
just-written file and fails with `VerificationFailed` affected by
`Fetched`. -/
theorem fetch_verification_failure_policy (sha : List Nat → List Nat)
    (settings : EngineSettings) (artifact : Artifact)
    (bytes body expected : List Nat)
    (hver : artifact.verification.sha256 = some expected) :
    (sha bytes ≠ expected →
      Fetcher.fetch sha settings artifact (some bytes) body =
        { result := .error
            { hashes := [⟨"sha256", sha bytes, expected⟩]
              affected := some (.Cache
                (Fetcher.create_artifact_path sha settings artifact))
              artifact := artifact }
          fileAfter := some bytes }) ∧
    (sha body ≠ expected →
      Fetcher.fetch sha settings artifact none body =
        { result := .error
            { hashes := [⟨"sha256", sha body, expected⟩]
              affected := some .Fetched
              artifact := artifact }
          fileAfter := none }) := by
  constructor <;> intro h <;>
    simp [Fetcher.fetch, DigestPool.failures, hver, h]

/-- Witness for C1: the identity function as the hash, an expectation
of `[1]`, cached bytes `[2]` and a downloaded body `[3]`. -/
theorem fetch_verification_failure_policy_witness :
    (Fetcher.fetch id defaultEngineSettings
        ⟨.Fetch ⟨"u", "f"⟩, ⟨some [1]⟩⟩ (some [2]) [] =
      { result := .error
          { hashes := [⟨"sha256", [2], [1]⟩]
            affected := some (.Cache (Fetcher.create_artifact_path id
              defaultEngineSettings ⟨.Fetch ⟨"u", "f"⟩, ⟨some [1]⟩⟩))
            artifact := ⟨.Fetch ⟨"u", "f"⟩, ⟨some [1]⟩⟩ }
        fileAfter := some [2] }) ∧
    (Fetcher.fetch id defaultEngineSettings
        ⟨.Fetch ⟨"u", "f"⟩, ⟨some [1]⟩⟩ none [3] =
      { result := .error
          { hashes := [⟨"sha256", [3], [1]⟩]
            affected := some .Fetched
            artifact := ⟨.Fetch ⟨"u", "f"⟩, ⟨some [1]⟩⟩ }
        fileAfter := none }) :=
  have t := fetch_verification_failure_policy id defaultEngineSettings
    ⟨.Fetch ⟨"u", "f"⟩, ⟨some [1]⟩⟩ [2] [3] [1] rfl
  ⟨t.1 (by decide), t.2 (by decide)⟩

/-! ## Claim C3 -/

lemma playAfterDefault_no_default (xs : List Action)
    (h : Action.Default ∉ xs) :
    Player.playAfterDefault xs = .ok (xs.map PlayEvent.exec) := by
  induction xs with
  | nil => rfl
  | cons a rest ih =>
    simp only [List.mem_cons, not_or] at h
    obtain ⟨ha, hrest⟩ := h
    simp only [Player.playAfterDefault]
    rw [if_neg (fun he => ha he.symm), ih hrest]
    rfl

lemma playAfterDefault_second_default (mid post : List Action)
    (h : Action.Default ∉ mid) :
    Player.playAfterDefault (mid ++ Action.Default :: post) =
      .error ".default called twice" := by
  induction mid with
  | nil => simp [Player.playAfterDefault]
  | cons a rest ih =>
    simp only [List.mem_cons, not_or] at h
    obtain ⟨ha, hrest⟩ := h
    simp only [List.cons_append, List.append_eq, Player.playAfterDefault]
    rw [if_neg (fun he => ha he.symm), ih hrest]
    rfl

lemma playMain_no_default (dflt : List PlayEvent) (xs : List Action)
    (h : Action.Default ∉ xs) :
    Player.playMain dflt xs = .ok (xs.map PlayEvent.exec, false) := by
  induction xs with
  | nil => rfl
  | cons a rest ih =>
    simp only [List.mem_cons, not_or] at h
    obtain ⟨ha, hrest⟩ := h
    simp only [Player.playMain]
    rw [if_neg (fun he => ha he.symm), ih hrest]
    rfl

lemma playMain_with_default (dflt : List PlayEvent) (pre post : List Action)
    (h : Action.Default ∉ pre) :
    Player.playMain dflt (pre ++ Action.Default :: post) =
      (Player.playAfterDefault post).map
        (fun l => (pre.map PlayEvent.exec ++ dflt ++ l, true)) := by
  induction pre with
  | nil =>
    simp only [List.nil_append, Player.playMain, if_pos rfl, List.map_nil]
    cases Player.playAfterDefault post <;> simp [Except.map]
  | cons a rest ih =>
    simp only [List.mem_cons, not_or] at h
    obtain ⟨ha, hrest⟩ := h
    simp only [List.cons_append, List.append_eq, Player.playMain]
    rw [if_neg (fun he => ha he.symm), ih hrest]
    cases Player.playAfterDefault post <;> simp [Except.map]

/-- Claim C3: `play` uses the one-element playbook `[Default]` when the
recipe has no playbook for the stage; it executes the actions in order,
splicing the caller's default body at the first `Default` and continuing
with the remaining actions; with no `Default` only the explicit actions
run (and no default body); a second `Default` is the fatal error
".default called twice". -/
theorem player_play_default_splice (playbooks : List (Stage × ActionPlaybook))
    (stage : Stage) (dflt : List PlayEvent) :
    (lookupStage playbooks stage = none →
      Player.play playbooks stage dflt = .ok (dflt, true)) ∧
    (∀ pb pre post, lookupStage playbooks stage = some pb →
      pb.actions = pre ++ Action.Default :: post →
      Action.Default ∉ pre → Action.Default ∉ post →
      Player.play playbooks stage dflt =
        .ok (pre.map PlayEvent.exec ++ dflt ++ post.map PlayEvent.exec,
             true)) ∧
    (∀ pb, lookupStage playbooks stage = some pb →
      Action.Default ∉ pb.actions →
      Player.play playbooks stage dflt =
        .ok (pb.actions.map PlayEvent.exec, false)) ∧
    (∀ pb pre mid post, lookupStage playbooks stage = some pb →
      pb.actions = pre ++ Action.Default :: (mid ++ Action.Default :: post) →
      Action.Default ∉ pre → Action.Default ∉ mid →
      Player.play playbooks stage dflt = .error ".default called twice") := by
  refine ⟨?_, ?_, ?_, ?_⟩
  · intro h
    unfold Player.play
    rw [h]
    show Player.playMain dflt [Action.Default] = _
    simp [Player.playMain, Player.playAfterDefault, Except.map]
  · intro pb pre post hl hact hpre hpost
    unfold Player.play
    rw [hl]
    show Player.playMain dflt pb.actions = _
    rw [hact, playMain_with_default dflt pre post hpre,
      playAfterDefault_no_default post hpost]
    rfl
  · intro pb hl hact
    unfold Player.play
    rw [hl]
    show Player.playMain dflt pb.actions = _
    exact playMain_no_default dflt pb.actions hact
  · intro pb pre mid post hl hact hpre hmid
    unfold Player.play
    rw [hl]
    show Player.playMain dflt pb.actions = _
    rw [hact, playMain_with_default dflt pre (mid ++ Action.Default :: post)
      hpre, playAfterDefault_second_default mid post hmid]
    rfl

/-- Witness for C3: a map with a spliced playbook for Configure, a
default-free playbook for Build, a doubly-defaulted playbook for
Install, and no playbook for Fetch. -/
theorem player_play_default_splice_witness :
    (Player.play
        [(Stage.Configure, ⟨Stage.Configure,
            [Action.Make, Action.Default, Action.Configure]⟩),
         (Stage.Build, ⟨Stage.Build, [Action.Make]⟩),
         (Stage.Install, ⟨Stage.Install, [Action.Default, Action.Default]⟩)]
        Stage.Fetch [.defaultStep 0] = .ok ([.defaultStep 0], true)) ∧
    (Player.play
        [(Stage.Configure, ⟨Stage.Configure,
            [Action.Make, Action.Default, Action.Configure]⟩),
         (Stage.Build, ⟨Stage.Build, [Action.Make]⟩),
         (Stage.Install, ⟨Stage.Install, [Action.Default, Action.Default]⟩)]
        Stage.Configure [.defaultStep 0] =
      .ok ([.exec Action.Make, .defaultStep 0, .exec Action.Configure],
           true)) ∧
    (Player.play
        [(Stage.Configure, ⟨Stage.Configure,
            [Action.Make, Action.Default, Action.Configure]⟩),
         (Stage.Build, ⟨Stage.Build, [Action.Make]⟩),
         (Stage.Install, ⟨Stage.Install, [Action.Default, Action.Default]⟩)]
        Stage.Build [.defaultStep 0] = .ok ([.exec Action.Make], false)) ∧
    (Player.play
        [(Stage.Configure, ⟨Stage.Configure,
            [Action.Make, Action.Default, Action.Configure]⟩),
         (Stage.Build, ⟨Stage.Build, [Action.Make]⟩),
         (Stage.Install, ⟨Stage.Install, [Action.Default, Action.Default]⟩)]
        Stage.Install [.defaultStep 0] = .error ".default called twice") := by
  have t := player_play_default_splice
    [(Stage.Configure, ⟨Stage.Configure,
        [Action.Make, Action.Default, Action.Configure]⟩),
     (Stage.Build, ⟨Stage.Build, [Action.Make]⟩),
     (Stage.Install, ⟨Stage.Install, [Action.Default, Action.Default]⟩)]
  refine ⟨(t Stage.Fetch [.defaultStep 0]).1 (by decide),
    (t Stage.Configure [.defaultStep 0]).2.1
      ⟨Stage.Configure, [Action.Make, Action.Default, Action.Configure]⟩
      [Action.Make] [Action.Configure] (by decide) rfl (by decide)
      (by decide),
    (t Stage.Build [.defaultStep 0]).2.2.1
      ⟨Stage.Build, [Action.Make]⟩ (by decide) (by decide),
    (t Stage.Install [.defaultStep 0]).2.2.2
      ⟨Stage.Install, [Action.Default, Action.Default]⟩ [] [] []
      (by decide) rfl (by decide) (by decide)⟩

/-! ## Claim C9 -/

lemma hdrByte_of_getElem? (bs : List Nat) (i c : Nat) (h : bs[i]? = some c) :
    hdrByte bs i = c := by
  unfold hdrByte
  rw [List.getD_eq_getElem?_getD, h]
  rfl

lemma take_four_eq (bs : List Nat) (h : 4 ≤ bs.length) :
    bs.take 4 = [hdrByte bs 0, hdrByte bs 1, hdrByte bs 2, hdrByte bs 3] := by
  rcases bs with _ | ⟨a, _ | ⟨b, _ | ⟨c, _ | ⟨d, rest⟩⟩⟩⟩
  · simp at h
  · simp at h
  · simp at h
  · simp at h
  · rfl

lemma parse_none_of_short (bs : List Nat) (h : bs.length < 24) :
    ElfHeader.parse bs = none := by
  simp only [ElfHeader.parse]
  rw [if_pos (show min bs.length 56 < 24 by omega)]

lemma parse_none_of_bad_magic (bs : List Nat)
    (h : bs.take 4 ≠ elfMagicBytes) : ElfHeader.parse bs = none := by
  by_cases h24 : min bs.length 56 < 24
  · simp only [ElfHeader.parse]
    rw [if_pos h24]
  · have hm : ¬(hdrByte bs 0 = 0x7F ∧ hdrByte bs 1 = 0x45 ∧
        hdrByte bs 2 = 0x4C ∧ hdrByte bs 3 = 0x46) := by
      rintro ⟨h0, h1, h2, h3⟩
      apply h
      rw [take_four_eq bs (by omega), h0, h1, h2, h3]
      rfl
    simp only [ElfHeader.parse]
    rw [if_neg h24, if_pos hm]

/-- Claim C9: `ElfHeader::parse` returns `None` (not an error) for every
input shorter than 24 bytes, for every input whose first four bytes are
not the ELF magic, for every class byte other than 1 or 2, for every
data-encoding byte other than 1 or 2, and whenever the available bytes
fall short of `40 + 3 * class width`; for every header,
`is_shared_object` holds iff `object_type = 3` and `is_executable` holds
iff `object_type = 2`; a 24-byte all-zero buffer parses as `None`. -/
theorem elf_parse_spec :
    (∀ bs : List Nat, bs.length < 24 → ElfHeader.parse bs = none) ∧
    (∀ bs : List Nat, bs.take 4 ≠ elfMagicBytes → ElfHeader.parse bs = none) ∧
    (∀ (bs : List Nat) (c : Nat), bs[4]? = some c → c ≠ 1 → c ≠ 2 →
      ElfHeader.parse bs = none) ∧
    (∀ (bs : List Nat) (d : Nat), bs[5]? = some d → d ≠ 1 → d ≠ 2 →
      ElfHeader.parse bs = none) ∧
    (∀ bs : List Nat, bs[4]? = some 1 → bs.length < 52 →
      ElfHeader.parse bs = none) ∧
    (∀ bs : List Nat, bs[4]? = some 2 → bs.length < 64 →
      ElfHeader.parse bs = none) ∧
    (∀ h : ElfHeader, (h.is_shared_object = true ↔ h.object_type = 3) ∧
      (h.is_executable = true ↔ h.object_type = 2)) ∧
    ElfHeader.parse (List.replicate 24 0) = none := by
  refine ⟨parse_none_of_short, parse_none_of_bad_magic, ?_, ?_, ?_, ?_, ?_, ?_⟩
  · intro bs c hget hc1 hc2
    by_cases h24 : min bs.length 56 < 24
    · simp only [ElfHeader.parse]
      rw [if_pos h24]
    · have h4 := hdrByte_of_getElem? bs 4 c hget
      by_cases hm : ¬(hdrByte bs 0 = 0x7F ∧ hdrByte bs 1 = 0x45 ∧
          hdrByte bs 2 = 0x4C ∧ hdrByte bs 3 = 0x46)
      · simp only [ElfHeader.parse]
        rw [if_neg h24, if_pos hm]
      · simp only [ElfHeader.parse]
        rw [if_neg h24, if_neg hm, h4, if_neg hc1, if_neg hc2]
  · intro bs d hget hd1 hd2
    by_cases h24 : min bs.length 56 < 24
    · simp only [ElfHeader.parse]
      rw [if_pos h24]
    · have h5 := hdrByte_of_getElem? bs 5 d hget
      by_cases hm : ¬(hdrByte bs 0 = 0x7F ∧ hdrByte bs 1 = 0x45 ∧
          hdrByte bs 2 = 0x4C ∧ hdrByte bs 3 = 0x46)
      · simp only [ElfHeader.parse]
        rw [if_neg h24, if_pos hm]
      · simp only [ElfHeader.parse]
        rw [if_neg h24, if_neg hm]
        by_cases hc1 : hdrByte bs 4 = 1
        · rw [if_pos hc1]
          simp only [parseWithClass]
          rw [h5, if_neg hd1, if_neg hd2]
        · rw [if_neg hc1]
          by_cases hc2 : hdrByte bs 4 = 2
          · rw [if_pos hc2]
            simp only [parseWithClass]
            rw [h5, if_neg hd1, if_neg hd2]
          · rw [if_neg hc2]
  · intro bs hget hlen
    by_cases h24 : min bs.length 56 < 24
    · simp only [ElfHeader.parse]
      rw [if_pos h24]
    · have h4 := hdrByte_of_getElem? bs 4 1 hget
      by_cases hm : ¬(hdrByte bs 0 = 0x7F ∧ hdrByte bs 1 = 0x45 ∧
          hdrByte bs 2 = 0x4C ∧ hdrByte bs 3 = 0x46)
      · simp only [ElfHeader.parse]
        rw [if_neg h24, if_pos hm]
      · simp only [ElfHeader.parse]
        rw [if_neg h24, if_neg hm, h4, if_pos rfl]
        simp only [parseWithClass, parseWithOrder]
        have hguard : min bs.length 56 < 40 + ElfClass.width .Class32 * 3 := by
          simp only [ElfClass.width]
          omega
        rw [if_pos hguard]
        split_ifs <;> rfl
  · intro bs hget hlen
    by_cases h24 : min bs.length 56 < 24
    · simp only [ElfHeader.parse]
      rw [if_pos h24]
    · have h4 := hdrByte_of_getElem? bs 4 2 hget
      by_cases hm : ¬(hdrByte bs 0 = 0x7F ∧ hdrByte bs 1 = 0x45 ∧
          hdrByte bs 2 = 0x4C ∧ hdrByte bs 3 = 0x46)
      · simp only [ElfHeader.parse]
        rw [if_neg h24, if_pos hm]
      · simp only [ElfHeader.parse]
        rw [if_neg h24, if_neg hm, h4]
        rw [if_neg (by omega : ¬(2 : Nat) = 1), if_pos rfl]
        simp only [parseWithClass, parseWithOrder]
        have hguard : min bs.length 56 < 40 + ElfClass.width .Class64 * 3 := by
          simp only [ElfClass.width]
          omega
        rw [if_pos hguard]
        split_ifs <;> rfl
  · intro h
    constructor <;>
      simp [ElfHeader.is_shared_object, ElfHeader.is_executable,
        ElfHeader.ET_DYN, ElfHeader.ET_EXEC]
  · decide

/-- Witness for C9, instantiating each conditional conjunct at a
concrete input. -/
theorem elf_parse_spec_witness :
    ElfHeader.parse [] = none ∧
    ElfHeader.parse (List.replicate 24 1) = none ∧
    ElfHeader.parse ([0x7F, 0x45, 0x4C, 0x46, 9] ++ List.replicate 19 0) =
      none ∧
    ElfHeader.parse ([0x7F, 0x45, 0x4C, 0x46, 1, 9] ++ List.replicate 18 0) =
      none ∧
    ElfHeader.parse ([0x7F, 0x45, 0x4C, 0x46, 1, 1] ++ List.replicate 18 0) =
      none ∧
    ElfHeader.parse ([0x7F, 0x45, 0x4C, 0x46, 2, 1] ++ List.replicate 18 0) =
      none :=
  ⟨elf_parse_spec.1 [] (by decide),
   elf_parse_spec.2.1 (List.replicate 24 1) (by decide),
   elf_parse_spec.2.2.1 ([0x7F, 0x45, 0x4C, 0x46, 9] ++ List.replicate 19 0)
     9 (by decide) (by decide) (by decide),
   elf_parse_spec.2.2.2.1
     ([0x7F, 0x45, 0x4C, 0x46, 1, 9] ++ List.replicate 18 0) 9 (by decide)
     (by decide) (by decide),
   elf_parse_spec.2.2.2.2.1
     ([0x7F, 0x45, 0x4C, 0x46, 1, 1] ++ List.replicate 18 0) (by decide)
     (by decide),
   elf_parse_spec.2.2.2.2.2.1
     ([0x7F, 0x45, 0x4C, 0x46, 2, 1] ++ List.replicate 18 0) (by decide)
     (by decide)⟩

/-! ## Claim C5 -/

/-- A complete 32-bit little-endian ELF header: magic, class 1, LSB,
`e_type = 2` (executable), `e_machine = 3`, 52 bytes in all — a file the
claim says CollectElf records in `elf_headers`. -/
def elf32Sample : List Nat :=
  [0x7F, 0x45, 0x4C, 0x46, 1, 1, 1, 0, 0, 0, 0, 0, 0, 0, 0, 0,
   2, 0, 3, 0, 1, 0, 0, 0,
   0, 0, 0, 0, 0, 0, 0, 0, 0, 0, 0, 0,
   0, 0, 0, 0,
   52, 0, 32, 0, 0, 0, 40, 0, 0, 0, 0, 0]

/-- Claim C5 fails on the code: `CollectElf::run` tests
`if let Ok(_) = file.read_exact(&mut buffer)` and `continue`s on a
SUCCESSFUL 9-byte read, so every regular file of at least 9 bytes is
skipped before the archive test and the ELF parse.  The claim (and the
spec's hook table) says such files are dispatched on their first 8
bytes.  This theorem evaluates the embedded per-file body on a complete,
parseable 32-bit ELF executable and on a 9-byte `!<arch>\n` archive:
both are skipped, while `ElfHeader::parse` would succeed on the former
and the archive magic matches on the latter. -/
theorem collect_elf_skips_readable_files :
    CollectElf.processFile (List.replicate 9 0) elf32Sample =
      CollectOutcome.skipped ∧
    (ElfHeader.parse elf32Sample).isSome = true ∧
    CollectElf.processFile (List.replicate 9 0) (arMagic ++ [0x61]) =
      CollectOutcome.skipped ∧
    (arMagic ++ [0x61]).take 8 = arMagic := by
  refine ⟨?_, ?_, ?_, ?_⟩ <;> decide

/-! ## Claim C6 -/

/-- An ELF header whose `machine` is zero and whose `object_type` is 2
(executable). -/
def machineZeroExecHeader : ElfHeader :=
  { ident := { actual := [], cls := .Class32, byte_order := .Lsb }
    object_type := 2
    machine := 0
    version := 0
    entry := 0
    program_header_offset := 0
    section_header_offset := 0
    flags := 0
    elf_header_size := 0
    program_header_entry_size := 0
    program_header_entries := 0
    section_header_entry_size := 0
    section_header_entries := 0
    section_header_index_for_string_table := 0 }

/-- Claim C6 counterexample: the claim says the hook classifies exactly
the collected headers with NONZERO machine.  But the binaries branch of
`StripBinaries::run` tests only `is_executable` — the machine field is
checked for libraries alone — so an executable header with `machine = 0`
is put into `binaries` and `strip` is invoked on it. -/
theorem strip_binaries_counterexample :
    machineZeroExecHeader.machine = 0 ∧
    machineZeroExecHeader.is_executable = true ∧
    StripBinaries.run none [("f", machineZeroExecHeader)] [] =
      [StripCmd.strip ["f"]] := by
  refine ⟨rfl, rfl, ?_⟩
  decide

lemma stripClassify_fst (hs : List (String × ElfHeader)) :
    (StripBinaries.classify hs).1 =
      (hs.filter fun ph => ph.2.is_executable).map Prod.fst := by
  induction hs with
  | nil => rfl
  | cons ph rest ih =>
    obtain ⟨p, h⟩ := ph
    by_cases he : h.is_executable <;>
      simp [StripBinaries.classify, he, ih]

lemma stripClassify_snd (hs : List (String × ElfHeader)) :
    (StripBinaries.classify hs).2 =
      (hs.filter fun ph =>
        decide (ph.2.machine ≠ 0) && ph.2.is_shared_object).map Prod.fst := by
  induction hs with
  | nil => rfl
  | cons ph rest ih =>
    obtain ⟨p, h⟩ := ph
    by_cases hm : h.machine ≠ 0 <;> by_cases hs : h.is_shared_object <;>
      simp [StripBinaries.classify, hm, hs, ih]

/-- Claim C6 amended: when `options.strip` is explicitly false the hook
invokes nothing.  Otherwise it classifies exactly the executables into
binaries — the machine field is not consulted for them — and exactly the
shared objects with nonzero machine into libraries, invoking `strip` on
the binaries, `strip --strip-unneeded` on the libraries and
`strip --strip-debug` on the archives, each only if the respective list
is non-empty. -/
theorem strip_binaries_amended (strip? : Option Bool)
    (hs : List (String × ElfHeader)) (ars : List String) :
    (strip? = some false → StripBinaries.run strip? hs ars = []) ∧
    (strip? ≠ some false →
      StripBinaries.run strip? hs ars =
        (let bins := (hs.filter fun ph => ph.2.is_executable).map Prod.fst
         let libs := (hs.filter fun ph =>
             decide (ph.2.machine ≠ 0) && ph.2.is_shared_object).map Prod.fst
         (if bins ≠ [] then [StripCmd.strip bins] else []) ++
         (if libs ≠ [] then [StripCmd.stripUnneeded libs] else []) ++
         (if ars ≠ [] then [StripCmd.stripDebug ars] else []))) := by
  constructor
  · intro h
    rw [h]
    rfl
  · intro h
    have hg : strip?.getD true = true := by
      cases strip? with
      | none => rfl
      | some b => cases b <;> simp_all
    simp only [StripBinaries.run, hg]
    rw [show (StripBinaries.classify hs) =
        ((StripBinaries.classify hs).1, (StripBinaries.classify hs).2)
      from rfl]
    rw [stripClassify_fst, stripClassify_snd]
    simp

/-- Witness for the amended C6: explicit `strip false` suppresses
everything; the default setting strips a machine-zero executable and an
archive. -/
theorem strip_binaries_amended_witness :
    StripBinaries.run (some false) [("f", machineZeroExecHeader)] ["a"] =
      [] ∧
    StripBinaries.run none [("f", machineZeroExecHeader)] ["a"] =
      [StripCmd.strip ["f"], StripCmd.stripDebug ["a"]] := by
  refine ⟨(strip_binaries_amended (some false)
      [("f", machineZeroExecHeader)] ["a"]).1 rfl, ?_⟩
  have t := (strip_binaries_amended none
      [("f", machineZeroExecHeader)] ["a"]).2 (by simp)
  rw [t]
  decide

/-! ## Claim C7 -/

/-- Spec-side projection of the recipe child fold onto the playbooks
map: per child, only the five stage names the source matches contribute,
each inserting its parsed playbook under its stage. -/
def playbookStep (m : List (Stage × ActionPlaybook)) (node : KdlNode) :
    List (Stage × ActionPlaybook) :=
  if node.name = "install" ∨ node.name = "prepare" ∨ node.name = "build" ∨
     node.name = "extract" ∨ node.name = "configure" then
    match (ActionPlaybook.parseNodeWithErrors node).1 with
    | some p => insertPlaybook m p.stage p
    | none => m
  else m

/-- The playbooks map a recipe node's children produce. -/
def recipePlaybooksSpec (children : List KdlNode) :
    List (Stage × ActionPlaybook) :=
  children.foldl playbookStep []

lemma recipeParseStep_playbooks (st : RecipeParseState) (node : KdlNode) :
    (recipeParseStep st node).playbooks = playbookStep st.playbooks node := by
  unfold recipeParseStep playbookStep
  by_cases h1 : node.name = "version"
  · rw [if_pos h1, if_neg (show ¬_ by rw [h1]; decide)]
    cases parseStringInto node "version" <;> rfl
  rw [if_neg h1]
  by_cases h2 : node.name = "description"
  · rw [if_pos h2, if_neg (show ¬_ by rw [h2]; decide)]
    cases parseStringInto node "version" <;> rfl
  rw [if_neg h2]
  by_cases h3 : node.name = "home"
  · rw [if_pos h3, if_neg (show ¬_ by rw [h3]; decide)]
    cases parseStringInto node "version" <;> rfl
  rw [if_neg h3]
  by_cases h4 : node.name = "source-dir"
  · rw [if_pos h4, if_neg (show ¬_ by rw [h4]; decide)]
    cases parseStringInto node "source-dir" <;> rfl
  rw [if_neg h4]
  by_cases h5 : node.name = "depends"
  · rw [if_pos h5, if_neg (show ¬_ by rw [h5]; decide)]
    rcases extractStringValuesWithExtend node.entries
      "depends expects only string values"
      "depends expected values, property found instead" with _ | ⟨_, _ | _⟩
      <;> rfl
  rw [if_neg h5]
  by_cases h6 : node.name = "provides"
  · rw [if_pos h6, if_neg (show ¬_ by rw [h6]; decide)]
    rcases extractStringValuesWithExtend node.entries
      "provides expects only string values"
      "provides expected values, property found instead" with _ | ⟨_, _ | _⟩
      <;> rfl
  rw [if_neg h6]
  by_cases h7 : node.name = "license"
  · rw [if_pos h7, if_neg (show ¬_ by rw [h7]; decide)]
    cases extractStringValues node.entries
      "depends expects only string values"
      "depends expected values, property found instead" <;> rfl
  rw [if_neg h7]
  by_cases h8 : node.name = "maintainer"
  · rw [if_pos h8, if_neg (show ¬_ by rw [h8]; decide)]
    cases extractStringValues node.entries
      "depends expects only string values"
      "depends expected values, property found instead" <;> rfl
  rw [if_neg h8]
  by_cases h9 : node.name = "artifacts"
  · rw [if_pos h9, if_neg (show ¬_ by rw [h9]; decide)]
  rw [if_neg h9]
  by_cases h10 : node.name = "style"
  · rw [if_pos h10,
      if_neg (show ¬(node.name = "install" ∨ node.name = "prepare" ∨
        node.name = "build" ∨ node.name = "extract" ∨
        node.name = "configure") by rw [h10]; decide)]
    split <;> rfl
  rw [if_neg h10]
  by_cases h11 : node.name = "options"
  · rw [if_pos h11, if_neg (show ¬_ by rw [h11]; decide)]
  rw [if_neg h11]
  by_cases h12 : node.name = "install" ∨ node.name = "prepare" ∨
      node.name = "build" ∨ node.name = "extract" ∨ node.name = "configure"
  · rw [if_pos h12, if_pos h12]
  · rw [if_neg h12, if_neg h12]

lemma foldl_recipeParseStep_playbooks (children : List KdlNode)
    (st : RecipeParseState) :
    (children.foldl recipeParseStep st).playbooks =
      children.foldl playbookStep st.playbooks := by
  induction children generalizing st with
  | nil => rfl
  | cons c rest ih =>
    simp only [List.foldl_cons, ih, recipeParseStep_playbooks]

lemma recipeInitState_playbooks (input : KdlNode) :
    (recipeInitState input).playbooks = [] := by
  unfold recipeInitState
  cases parseStringInto input "name of recipe" <;> rfl

lemma actionPlaybook_parse_of_from_str (node : KdlNode) (s : Stage)
    (hs : Stage.from_str node.name = some s) :
    ∃ pb, (ActionPlaybook.parseNodeWithErrors node).1 = some pb ∧
      pb.stage = s := by
  unfold ActionPlaybook.parseNodeWithErrors
  rw [hs]
  exact ⟨_, rfl, rfl⟩

/-- Claim C7 counterexample: a recipe node with a `fetch` stage child
holding a `.default` action.  The recipe parser's stage arm names only
`install | prepare | build | extract | configure`; the `fetch` child
falls through to the catch-all and is silently ignored — the parsed
recipe's playbooks map is empty and no error is recorded — even though
`Stage::from_str` itself accepts `"fetch"`.  This refutes the claim
that all six stage names can be named as stage nodes. -/
theorem recipe_fetch_stage_node_counterexample :
    (Recipe.parseNodeWithErrors
        ⟨"recipe", [⟨none, .str "foo"⟩],
         [⟨"version", [⟨none, .str "1"⟩], []⟩,
          ⟨"fetch", [], [⟨".default", [], []⟩]⟩]⟩).1.map Recipe.playbooks =
      some [] ∧
    (Recipe.parseNodeWithErrors
        ⟨"recipe", [⟨none, .str "foo"⟩],
         [⟨"version", [⟨none, .str "1"⟩], []⟩,
          ⟨"fetch", [], [⟨".default", [], []⟩]⟩]⟩).2 = [] ∧
    Stage.from_str "fetch" = some Stage.Fetch := by
  exact ⟨rfl, rfl, rfl⟩

/-- Claim C7 amended: the five stage names `prepare`, `extract`,
`configure`, `build`, `install` can each be named as a stage node of a
recipe node, and every such node is parsed into an `ActionPlaybook`
stored in the recipe's playbooks map under its stage; a stage node
named `fetch` is ignored.  The parsed recipe's playbooks map is exactly
the fold of `playbookStep` over the children. -/
theorem recipe_stage_nodes_amended :
    (∀ input : KdlNode,
      (Recipe.parseNodeWithErrors input).1.map Recipe.playbooks =
        some (recipePlaybooksSpec input.children)) ∧
    (∀ node : KdlNode,
      node.name = "install" ∨ node.name = "prepare" ∨ node.name = "build" ∨
      node.name = "extract" ∨ node.name = "configure" →
      ∃ pb, (ActionPlaybook.parseNodeWithErrors node).1 = some pb ∧
        Stage.from_str node.name = some pb.stage ∧
        ∀ m, playbookStep m node = insertPlaybook m pb.stage pb) ∧
    (∀ (node : KdlNode) (m : List (Stage × ActionPlaybook)),
      node.name = "fetch" → playbookStep m node = m) := by
  refine ⟨?_, ?_, ?_⟩
  · intro input
    have heq : (Recipe.parseNodeWithErrors input).1.map Recipe.playbooks =
        some ((recipeFoldState input).playbooks) := rfl
    rw [heq]
    unfold recipeFoldState recipePlaybooksSpec
    rw [foldl_recipeParseStep_playbooks, recipeInitState_playbooks]
  · intro node h
    have hcond := h
    rcases h with h | h | h | h | h <;>
    · obtain ⟨pb, hpb, hstage⟩ :=
        actionPlaybook_parse_of_from_str node _ (by rw [h]; rfl)
      refine ⟨pb, hpb, ?_, ?_⟩
      · rw [hstage, h]
        rfl
      · intro m
        unfold playbookStep
        rw [if_pos (by rw [h]; decide), hpb]
  · intro node m h
    unfold playbookStep
    rw [if_neg (by rw [h]; decide)]

/-- Witness for the amended C7: a recipe node with an `install` child
carrying a `make` action; the resulting playbooks map has exactly the
Install entry, and `playbookStep` ignores a `fetch` node. -/
theorem recipe_stage_nodes_amended_witness :
    (Recipe.parseNodeWithErrors
        ⟨"recipe", [⟨none, .str "foo"⟩],
         [⟨"version", [⟨none, .str "1"⟩], []⟩,
          ⟨"install", [], [⟨"make", [], []⟩]⟩]⟩).1.map Recipe.playbooks =
      some (recipePlaybooksSpec
        [⟨"version", [⟨none, .str "1"⟩], []⟩,
         ⟨"install", [], [⟨"make", [], []⟩]⟩]) ∧
    (∃ pb, (ActionPlaybook.parseNodeWithErrors
        ⟨"install", [], [⟨"make", [], []⟩]⟩).1 = some pb ∧
      Stage.from_str "install" = some pb.stage ∧
      ∀ m, playbookStep m ⟨"install", [], [⟨"make", [], []⟩]⟩ =
        insertPlaybook m pb.stage pb) ∧
    playbookStep [] ⟨"fetch", [], [⟨".default", [], []⟩]⟩ = [] :=
  ⟨recipe_stage_nodes_amended.1
     ⟨"recipe", [⟨none, .str "foo"⟩],
      [⟨"version", [⟨none, .str "1"⟩], []⟩,
       ⟨"install", [], [⟨"make", [], []⟩]⟩]⟩,
   recipe_stage_nodes_amended.2.1 ⟨"install", [], [⟨"make", [], []⟩]⟩
     (Or.inl rfl),
   recipe_stage_nodes_amended.2.2 ⟨"fetch", [], [⟨".default", [], []⟩]⟩ []
     rfl⟩

/-! ## Claim C8 -/

lemma recipeParseStep_found_version (st : RecipeParseState) (node : KdlNode)
    (h : node.name ≠ "version") :
    (recipeParseStep st node).found_version = st.found_version := by
  unfold recipeParseStep
  rw [if_neg h]
  by_cases h2 : node.name = "description"
  · rw [if_pos h2]
    cases parseStringInto node "version" <;> rfl
  rw [if_neg h2]
  by_cases h3 : node.name = "home"
  · rw [if_pos h3]
    cases parseStringInto node "version" <;> rfl
  rw [if_neg h3]
  by_cases h4 : node.name = "source-dir"
  · rw [if_pos h4]
    cases parseStringInto node "source-dir" <;> rfl
  rw [if_neg h4]
  by_cases h5 : node.name = "depends"
  · rw [if_pos h5]
    rcases extractStringValuesWithExtend node.entries
      "depends expects only string values"
      "depends expected values, property found instead" with _ | ⟨_, _ | _⟩
      <;> rfl
  rw [if_neg h5]
  by_cases h6 : node.name = "provides"
  · rw [if_pos h6]
    rcases extractStringValuesWithExtend node.entries
      "provides expects only string values"
      "provides expected values, property found instead" with _ | ⟨_, _ | _⟩
      <;> rfl
  rw [if_neg h6]
  by_cases h7 : node.name = "license"
  · rw [if_pos h7]
    cases extractStringValues node.entries
      "depends expects only string values"
      "depends expected values, property found instead" <;> rfl
  rw [if_neg h7]
  by_cases h8 : node.name = "maintainer"
  · rw [if_pos h8]
    cases extractStringValues node.entries
      "depends expects only string values"
      "depends expected values, property found instead" <;> rfl
  rw [if_neg h8]
  by_cases h9 : node.name = "artifacts"
  · rw [if_pos h9]
  rw [if_neg h9]
  by_cases h10 : node.name = "style"
  · rw [if_pos h10]
    split <;> rfl
  rw [if_neg h10]
  by_cases h11 : node.name = "options"
  · rw [if_pos h11]
  rw [if_neg h11]
  by_cases h12 : node.name = "install" ∨ node.name = "prepare" ∨
      node.name = "build" ∨ node.name = "extract" ∨ node.name = "configure"
  · rw [if_pos h12]
  · rw [if_neg h12]

lemma recipeInitState_found_version (input : KdlNode) :
    (recipeInitState input).found_version = false := by
  unfold recipeInitState
  cases parseStringInto input "name of recipe" <;> rfl

lemma foldl_found_version (children : List KdlNode) (st : RecipeParseState)
    (h : ∀ c ∈ children, c.name ≠ "version") :
    (children.foldl recipeParseStep st).found_version = st.found_version := by
  induction children generalizing st with
  | nil => rfl
  | cons c rest ih =>
    simp only [List.foldl_cons]
    rw [ih _ fun x hx => h x (List.mem_cons_of_mem c hx),
      recipeParseStep_found_version st c (h c (List.mem_cons_self c rest))]

lemma recipe_missing_version_mem (input : KdlNode)
    (h : ∀ c ∈ input.children, c.name ≠ "version") :
    (⟨none, none, "recipe missing version"⟩ : HobParseError) ∈
      (Recipe.parseNodeWithErrors input).2 := by
  have heq : (Recipe.parseNodeWithErrors input).2 =
      (recipeFoldState input).errors ++
      (if (recipeFoldState input).found_version then []
       else [⟨none, none, "recipe missing version"⟩]) ++
      (parseSides input.children (recipeAssemble input)).2 := rfl
  have hf : (recipeFoldState input).found_version = false := by
    unfold recipeFoldState
    rw [foldl_found_version _ _ h, recipeInitState_found_version]
  rw [heq, hf]
  simp

lemma documentParseStep_errors_ne (acc : List Recipe × List HobParseError)
    (node : KdlNode) (h : acc.2 ≠ []) :
    (documentParseStep acc node).2 ≠ [] := by
  unfold documentParseStep
  split_ifs with hr
  · show acc.2 ++ (Recipe.parseNodeWithErrors node).2 ≠ []
    simp [h]
  · exact h

lemma documentParseStep_recipe_errors (acc : List Recipe × List HobParseError)
    (node : KdlNode) (hrec : node.name = "recipe")
    (hne : (Recipe.parseNodeWithErrors node).2 ≠ []) :
    (documentParseStep acc node).2 ≠ [] := by
  unfold documentParseStep
  rw [if_pos hrec]
  show acc.2 ++ (Recipe.parseNodeWithErrors node).2 ≠ []
  simp [hne]

lemma docFold_errors_ne (nodes : List KdlNode)
    (acc : List Recipe × List HobParseError) (h : acc.2 ≠ []) :
    ((nodes.foldl documentParseStep acc)).2 ≠ [] := by
  induction nodes generalizing acc with
  | nil => exact h
  | cons c rest ih => exact ih _ (documentParseStep_errors_ne acc c h)

/-- Claim C8: a recipe node with no `version` child fails the recipe's
parse — the 'recipe missing version' error is recorded among its parse
errors — and strict-mode document parsing returns an error for any
document containing such a recipe node. -/
theorem recipe_missing_version_strict :
    (∀ input : KdlNode, (∀ c ∈ input.children, c.name ≠ "version") →
      ∃ e ∈ (Recipe.parseNodeWithErrors input).2,
        e.kind = "recipe missing version") ∧
    (∀ nodes : List KdlNode,
      (∃ n ∈ nodes, n.name = "recipe" ∧
        ∀ c ∈ n.children, c.name ≠ "version") →
      ∃ errs, Document.parseDocumentStrict nodes = .error errs ∧
        errs ≠ []) := by
  constructor
  · intro input h
    exact ⟨⟨none, none, "recipe missing version"⟩,
      recipe_missing_version_mem input h, rfl⟩
  · intro nodes h
    obtain ⟨n, hn, hrec, hver⟩ := h
    obtain ⟨l1, l2, rfl⟩ := List.append_of_mem hn
    have hne : ((l1 ++ n :: l2).foldl documentParseStep ([], [])).2 ≠ [] := by
      rw [List.foldl_append, List.foldl_cons]
      exact docFold_errors_ne l2 _ (documentParseStep_recipe_errors _ n hrec
        (List.ne_nil_of_mem (recipe_missing_version_mem n hver)))
    refine ⟨((l1 ++ n :: l2).foldl documentParseStep ([], [])).2, ?_, hne⟩
    have heq : Document.parseDocumentStrict (l1 ++ n :: l2) =
        if ((l1 ++ n :: l2).foldl documentParseStep ([], [])).2.isEmpty
        then .ok ⟨((l1 ++ n :: l2).foldl documentParseStep ([], [])).1⟩
        else .error ((l1 ++ n :: l2).foldl documentParseStep ([], [])).2 :=
      rfl
    rw [heq, if_neg (by simpa [List.isEmpty_iff] using hne)]

/-- Witness for C8: a versionless recipe node, alone and inside a
one-node document. -/
theorem recipe_missing_version_strict_witness :
    (∃ e ∈ (Recipe.parseNodeWithErrors
        ⟨"recipe", [⟨none, .str "foo"⟩], []⟩).2,
      e.kind = "recipe missing version") ∧
    (∃ errs, Document.parseDocumentStrict
        [⟨"recipe", [⟨none, .str "foo"⟩], []⟩] = .error errs ∧ errs ≠ []) :=
  ⟨recipe_missing_version_strict.1 ⟨"recipe", [⟨none, .str "foo"⟩], []⟩
     (by simp),
   recipe_missing_version_strict.2 [⟨"recipe", [⟨none, .str "foo"⟩], []⟩]
     ⟨⟨"recipe", [⟨none, .str "foo"⟩], []⟩, by simp, rfl, by simp⟩⟩

end Hob
